import Mathlib

/-!
# Verification of the source–redshift sensitivity core

Shallow embedding of the repository's core modules:

* `src/cosmology.py` — flat ΛCDM distance engine (`_simpson_integrate`,
  `FlatLambdaCDM` with `E`, `comoving_distance`, `angular_diameter_distance`,
  `angular_diameter_distance_z1z2`, `sigma_crit`);
* `src/validate.py` — `validate_lens_inputs`;
* `src/sensitivity.py` — `ln_sigma` (nested helper) and `compute_sensitivity`.

Python floats are modelled as exact real numbers extended with a NaN
sentinel (`PyF`): the only non-finite values these functions produce under
exact real semantics are the explicit `float("nan")` sentinels and the NaN
produced by `np.sqrt` of a negative argument inside the quadrature (the
repository imports numpy when available, so the vectorised branch of
`_simpson_integrate` is the operative one; the pure-python fallback would
raise `ValueError` from `math.sqrt` at the same inputs — every theorem
below only ever evaluates the integrand where the radicand is positive,
so the two branches agree on everything proved here).  Exceptions
(`ValueError` from negative redshifts or a bad Simpson `n`) are modelled
with `Except Unit`.  Division of a finite float by exact zero (Python
`ZeroDivisionError` / numpy `inf`) is never exercised by any theorem:
every division proved about below has a provably nonzero denominator.
-/

open Classical

noncomputable section

/-- Model of a Python float value: an exact real, or the NaN sentinel. -/
inductive PyF where
  | val (x : ℝ)
  | nan


namespace PyF

/-- IEEE-style addition: NaN is absorbing. -/
def add : PyF → PyF → PyF
  | .val x, .val y => .val (x + y)
  | .val _, .nan => .nan
  | .nan, _ => .nan

/-- IEEE-style subtraction: NaN is absorbing. -/
def sub : PyF → PyF → PyF
  | .val x, .val y => .val (x - y)
  | .val _, .nan => .nan
  | .nan, _ => .nan

/-- IEEE-style multiplication: NaN is absorbing (0 * NaN = NaN as in IEEE). -/
def mul : PyF → PyF → PyF
  | .val x, .val y => .val (x * y)
  | .val _, .nan => .nan
  | .nan, _ => .nan

/-- Division; NaN absorbing.  The denominator is nonzero wherever any
theorem below evaluates this. -/
def div : PyF → PyF → PyF
  | .val x, .val y => .val (x / y)
  | .val _, .nan => .nan
  | .nan, _ => .nan

instance : Add PyF := ⟨PyF.add⟩
instance : Sub PyF := ⟨PyF.sub⟩
instance : Mul PyF := ⟨PyF.mul⟩
instance : Div PyF := ⟨PyF.div⟩
instance : Zero PyF := ⟨PyF.val 0⟩

@[simp] theorem val_add_val (x y : ℝ) : (PyF.val x) + (PyF.val y) = PyF.val (x + y) := rfl
@[simp] theorem val_add_nan (x : ℝ) : (PyF.val x) + PyF.nan = PyF.nan := rfl
@[simp] theorem nan_add (a : PyF) : PyF.nan + a = PyF.nan := rfl
@[simp] theorem val_sub_val (x y : ℝ) : (PyF.val x) - (PyF.val y) = PyF.val (x - y) := rfl
@[simp] theorem val_sub_nan (x : ℝ) : (PyF.val x) - PyF.nan = PyF.nan := rfl
@[simp] theorem nan_sub (a : PyF) : PyF.nan - a = PyF.nan := rfl
@[simp] theorem val_mul_val (x y : ℝ) : (PyF.val x) * (PyF.val y) = PyF.val (x * y) := rfl
@[simp] theorem val_mul_nan (x : ℝ) : (PyF.val x) * PyF.nan = PyF.nan := rfl
@[simp] theorem nan_mul (a : PyF) : PyF.nan * a = PyF.nan := rfl
@[simp] theorem val_div_val (x y : ℝ) : (PyF.val x) / (PyF.val y) = PyF.val (x / y) := rfl
@[simp] theorem val_div_nan (x : ℝ) : (PyF.val x) / PyF.nan = PyF.nan := rfl
@[simp] theorem nan_div (a : PyF) : PyF.nan / a = PyF.nan := rfl
@[simp] theorem zero_def : (0 : PyF) = PyF.val 0 := rfl

instance : AddCommMonoid PyF where
  add_assoc a b c := by
    cases a <;> cases b <;> cases c <;> simp [add_assoc]
  zero_add a := by cases a <;> simp
  add_zero a := by cases a <;> simp
  add_comm a b := by cases a <;> cases b <;> simp [add_comm]
  nsmul := nsmulRec

/-- The float is a genuine (finite) number — Python `_is_finite`. -/
def isVal : PyF → Prop
  | .val _ => True
  | .nan => False

/-- The float is the NaN sentinel — Python `x != x`. -/
def isNan : PyF → Prop
  | .val _ => False
  | .nan => True

/-- Python `(D <= 0.0) or (D != D)` — the rejection test used by
`sigma_crit` on intermediate distances (NaN compares false with `<=`,
and is caught by the separate `D != D` test; the union is this predicate). -/
def nonposOrNan : PyF → Prop
  | .val x => x ≤ 0
  | .nan => True

/-- A finite strictly positive value: the acceptance test
`_is_finite(x) and x > 0` of the sensitivity kernel. -/
def posVal : PyF → Prop
  | .val x => 0 < x
  | .nan => False

@[simp] theorem isVal_val (x : ℝ) : (PyF.val x).isVal := trivial
@[simp] theorem not_isVal_nan : ¬ PyF.nan.isVal := fun h => h
@[simp] theorem isNan_nan : PyF.nan.isNan := trivial
@[simp] theorem not_isNan_val (x : ℝ) : ¬ (PyF.val x).isNan := fun h => h
@[simp] theorem posVal_val (x : ℝ) : (PyF.val x).posVal ↔ 0 < x := Iff.rfl
@[simp] theorem not_posVal_nan : ¬ PyF.nan.posVal := fun h => h
@[simp] theorem nonposOrNan_val (x : ℝ) : (PyF.val x).nonposOrNan ↔ x ≤ 0 := Iff.rfl
@[simp] theorem nonposOrNan_nan : PyF.nan.nonposOrNan := trivial

theorem sum_val {s : Finset ℕ} (g : ℕ → ℝ) :
    ∑ i ∈ s, PyF.val (g i) = PyF.val (∑ i ∈ s, g i) := by
  refine Finset.induction_on s (by simp) (fun a t ha ih => ?_)
  simp [Finset.sum_insert ha, ih]

end PyF

/-!
## Composite Simpson quadrature (`_simpson_integrate` in `src/cosmology.py`)

The source raises `ValueError` unless `n` is positive and even (modelled by
the `none` result), and otherwise returns
`(h/3) * (f(a) + f(b) + 4*Σ f(odd interior nodes) + 2*Σ f(even interior nodes))`
with `h = (b-a)/n`; the interior nodes are `a + i*h` for `i = 1, …, n-1`.
-/

/-- Simpson's rule integration of `f` from `a` to `b` using `n` subintervals
(`_simpson_integrate`); `none` models the raised `ValueError` for a
non-positive or odd `n`. -/
def simpson_integrate (f : ℝ → PyF) (a b : ℝ) (n : ℕ) : Option PyF :=
  if n = 0 ∨ n % 2 ≠ 0 then none
  else
    let h := (b - a) / (n : ℝ)
    let s0 := f a + f b
    let s1 := ∑ i ∈ (Finset.Ico 1 n).filter (fun i => i % 2 = 1), f (a + (i : ℝ) * h)
    let s2 := ∑ i ∈ (Finset.Ico 1 n).filter (fun i => i % 2 = 0), f (a + (i : ℝ) * h)
    some (PyF.val (h / 3) * (s0 + PyF.val 4 * s1 + PyF.val 2 * s2))

/-- Real-valued shadow of `simpson_integrate`, used to reason about runs in
which the integrand is finite at every node. -/
def simpsonReal (g : ℝ → ℝ) (a b : ℝ) (n : ℕ) : ℝ :=
  let h := (b - a) / (n : ℝ)
  (h / 3) * ((g a + g b) + 4 * (∑ i ∈ (Finset.Ico 1 n).filter (fun i => i % 2 = 1), g (a + (i : ℝ) * h)) +
    2 * (∑ i ∈ (Finset.Ico 1 n).filter (fun i => i % 2 = 0), g (a + (i : ℝ) * h)))

theorem sum_filter_odd_Ico {M : Type} [AddCommMonoid M] (F : ℕ → M) (k : ℕ) :
    ∑ i ∈ (Finset.Ico 1 (2 * k)).filter (fun i => i % 2 = 1), F i =
      ∑ j ∈ Finset.range k, F (2 * j + 1) := by
  induction k with
  | zero => simp
  | succ k ih =>
    rcases Nat.eq_zero_or_pos k with hk | hk
    · subst hk
      rw [Finset.sum_filter]
      rw [show 2 * 1 = 1 + 1 by ring, Finset.sum_Ico_succ_top le_rfl]
      simp
    · rw [Finset.sum_filter] at ih ⊢
      have h1 : 2 * (k + 1) = (2 * k + 1) + 1 := by ring
      have h2 : (1 : ℕ) ≤ 2 * k + 1 := by omega
      have h3 : (1 : ℕ) ≤ 2 * k := by omega
      rw [h1, Finset.sum_Ico_succ_top h2, Finset.sum_Ico_succ_top h3]
      have e1 : (2 * k + 1) % 2 = 1 := by omega
      have e2 : (2 * k) % 2 = 0 := by omega
      simp [Finset.sum_range_succ, ih, e1, e2]

theorem sum_filter_even_Ico {M : Type} [AddCommMonoid M] (F : ℕ → M) (k : ℕ) :
    ∑ i ∈ (Finset.Ico 1 (2 * k)).filter (fun i => i % 2 = 0), F i =
      ∑ j ∈ Finset.range (k - 1), F (2 * j + 2) := by
  induction k with
  | zero => simp
  | succ k ih =>
    rcases Nat.eq_zero_or_pos k with hk | hk
    · subst hk
      rw [Finset.sum_filter]
      norm_num
    · rw [Finset.sum_filter] at ih ⊢
      have h1 : 2 * (k + 1) = (2 * k + 1) + 1 := by ring
      have h2 : (1 : ℕ) ≤ 2 * k + 1 := by omega
      have h3 : (1 : ℕ) ≤ 2 * k := by omega
      rw [h1, Finset.sum_Ico_succ_top h2, Finset.sum_Ico_succ_top h3]
      have e1 : (2 * k + 1) % 2 = 1 := by omega
      have e2 : (2 * k) % 2 = 0 := by omega
      have e3 : k + 1 - 1 = (k - 1) + 1 := by omega
      rw [e3, Finset.sum_range_succ]
      have e4 : 2 * (k - 1) + 2 = 2 * k := by omega
      simp [ih, e1, e2, e4, add_assoc]

/-- When the integrand is finite (`PyF.val`) at every quadrature node, the
embedded `_simpson_integrate` computes the real Simpson value. -/
theorem simpson_integrate_eq_real (f : ℝ → PyF) (g : ℝ → ℝ) (a b : ℝ) (n : ℕ)
    (hn : n ≠ 0) (hev : n % 2 = 0)
    (hfg : ∀ i : ℕ, i ≤ n → f (a + (i : ℝ) * ((b - a) / (n : ℝ))) =
      PyF.val (g (a + (i : ℝ) * ((b - a) / (n : ℝ))))) :
    simpson_integrate f a b n = some (PyF.val (simpsonReal g a b n)) := by
  have hcond : ¬ (n = 0 ∨ n % 2 ≠ 0) := by
    push_neg
    exact ⟨hn, hev⟩
  have ha : f a = PyF.val (g a) := by
    have := hfg 0 (Nat.zero_le n)
    simpa using this
  have hb : f b = PyF.val (g b) := by
    have := hfg n le_rfl
    have hne : (n : ℝ) ≠ 0 := Nat.cast_ne_zero.mpr hn
    rw [show a + (n : ℝ) * ((b - a) / (n : ℝ)) = b by field_simp] at this
    exact this
  have hs1 : ∑ i ∈ (Finset.Ico 1 n).filter (fun i => i % 2 = 1),
      f (a + (i : ℝ) * ((b - a) / (n : ℝ))) =
      PyF.val (∑ i ∈ (Finset.Ico 1 n).filter (fun i => i % 2 = 1),
        g (a + (i : ℝ) * ((b - a) / (n : ℝ)))) := by
    rw [Finset.sum_congr rfl (fun i hi => hfg i ?_), PyF.sum_val]
    have := Finset.mem_filter.mp hi
    have := Finset.mem_Ico.mp this.1
    omega
  have hs2 : ∑ i ∈ (Finset.Ico 1 n).filter (fun i => i % 2 = 0),
      f (a + (i : ℝ) * ((b - a) / (n : ℝ))) =
      PyF.val (∑ i ∈ (Finset.Ico 1 n).filter (fun i => i % 2 = 0),
        g (a + (i : ℝ) * ((b - a) / (n : ℝ)))) := by
    rw [Finset.sum_congr rfl (fun i hi => hfg i ?_), PyF.sum_val]
    have := Finset.mem_filter.mp hi
    have := Finset.mem_Ico.mp this.1
    omega
  rw [simpson_integrate, if_neg hcond]
  rw [simpsonReal]
  simp only [ha, hb, hs1, hs2, PyF.val_add_val, PyF.val_mul_val]

/-- Sandwich bound for the real Simpson value: if `lo ≤ g ≤ hi` on `[a, b]`
then the quadrature value lies in `[lo*(b-a), hi*(b-a)]` (the Simpson weights
sum to `3n`, so the rule is exact on constants). -/
theorem simpsonReal_bounds (g : ℝ → ℝ) (a b : ℝ) (k : ℕ) (hk : k ≠ 0) (hab : a ≤ b)
    (lo hi : ℝ) (hb : ∀ x, a ≤ x → x ≤ b → lo ≤ g x ∧ g x ≤ hi) :
    lo * (b - a) ≤ simpsonReal g a b (2 * k) ∧ simpsonReal g a b (2 * k) ≤ hi * (b - a) := by
  have hk' : (0 : ℝ) < (2 * k : ℕ) := by
    have : 0 < 2 * k := by omega
    exact_mod_cast this
  set h := (b - a) / ((2 * k : ℕ) : ℝ) with hh
  have hpos : 0 ≤ h := div_nonneg (by linarith) (le_of_lt hk')
  have hnode : ∀ i : ℕ, i ≤ 2 * k → a ≤ a + (i : ℝ) * h ∧ a + (i : ℝ) * h ≤ b := by
    intro i hi
    constructor
    · nlinarith [mul_nonneg (Nat.cast_nonneg (α := ℝ) i) hpos]
    · have h1 : (i : ℝ) * h ≤ ((2 * k : ℕ) : ℝ) * h := by
        apply mul_le_mul_of_nonneg_right _ hpos
        exact_mod_cast hi
      have h2 : ((2 * k : ℕ) : ℝ) * h = b - a := by
        rw [hh]
        field_simp
      linarith
  have hgb : ∀ i : ℕ, i ≤ 2 * k → lo ≤ g (a + (i : ℝ) * h) ∧ g (a + (i : ℝ) * h) ≤ hi :=
    fun i hi => hb _ (hnode i hi).1 (hnode i hi).2
  have hcard1 : (Finset.range k).card = k := Finset.card_range k
  have hcard2 : (Finset.range (k - 1)).card = k - 1 := Finset.card_range (k - 1)
  have hS1lo : (k : ℝ) * lo ≤ ∑ j ∈ Finset.range k, g (a + ((2 * j + 1 : ℕ) : ℝ) * h) := by
    have := Finset.card_nsmul_le_sum (Finset.range k)
      (fun j => g (a + ((2 * j + 1 : ℕ) : ℝ) * h)) lo
      (fun j hj => (hgb (2 * j + 1) (by have := Finset.mem_range.mp hj; omega)).1)
    simpa [hcard1, nsmul_eq_mul] using this
  have hS1hi : ∑ j ∈ Finset.range k, g (a + ((2 * j + 1 : ℕ) : ℝ) * h) ≤ (k : ℝ) * hi := by
    have := Finset.sum_le_card_nsmul (Finset.range k)
      (fun j => g (a + ((2 * j + 1 : ℕ) : ℝ) * h)) hi
      (fun j hj => (hgb (2 * j + 1) (by have := Finset.mem_range.mp hj; omega)).2)
    simpa [hcard1, nsmul_eq_mul] using this
  have hS2lo : ((k - 1 : ℕ) : ℝ) * lo ≤
      ∑ j ∈ Finset.range (k - 1), g (a + ((2 * j + 2 : ℕ) : ℝ) * h) := by
    have := Finset.card_nsmul_le_sum (Finset.range (k - 1))
      (fun j => g (a + ((2 * j + 2 : ℕ) : ℝ) * h)) lo
      (fun j hj => (hgb (2 * j + 2) (by have := Finset.mem_range.mp hj; omega)).1)
    simpa [hcard2, nsmul_eq_mul] using this
  have hS2hi : ∑ j ∈ Finset.range (k - 1), g (a + ((2 * j + 2 : ℕ) : ℝ) * h) ≤
      ((k - 1 : ℕ) : ℝ) * hi := by
    have := Finset.sum_le_card_nsmul (Finset.range (k - 1))
      (fun j => g (a + ((2 * j + 2 : ℕ) : ℝ) * h)) hi
      (fun j hj => (hgb (2 * j + 2) (by have := Finset.mem_range.mp hj; omega)).2)
    simpa [hcard2, nsmul_eq_mul] using this
  have hexp : simpsonReal g a b (2 * k) =
      (h / 3) * ((g a + g b) + 4 * (∑ j ∈ Finset.range k, g (a + ((2 * j + 1 : ℕ) : ℝ) * h)) +
        2 * (∑ j ∈ Finset.range (k - 1), g (a + ((2 * j + 2 : ℕ) : ℝ) * h))) := by
    rw [simpsonReal]
    rw [sum_filter_odd_Ico (fun i => g (a + (i : ℝ) * ((b - a) / ((2 * k : ℕ) : ℝ)))) k]
    rw [sum_filter_even_Ico (fun i => g (a + (i : ℝ) * ((b - a) / ((2 * k : ℕ) : ℝ)))) k]
  have hga := hgb 0 (by omega)
  have hgbn := hgb (2 * k) le_rfl
  simp only [Nat.cast_zero, zero_mul, add_zero] at hga
  have hgbn' : lo ≤ g b ∧ g b ≤ hi := by
    have h2 : a + ((2 * k : ℕ) : ℝ) * h = b := by
      rw [hh]
      field_simp
    rwa [h2] at hgbn
  have hkcast : ((k - 1 : ℕ) : ℝ) = (k : ℝ) - 1 := by
    have h1 : 1 ≤ k := by omega
    simpa using Nat.cast_sub (R := ℝ) h1
  have hcast2 : ((2 * k : ℕ) : ℝ) = 2 * (k : ℝ) := by push_cast; ring
  have hkne : (k : ℝ) ≠ 0 := Nat.cast_ne_zero.mpr hk
  have hksum : (h / 3) * ((lo + lo) + 4 * ((k : ℝ) * lo) + 2 * (((k : ℝ) - 1) * lo)) =
      lo * (b - a) := by
    rw [hh, hcast2]
    field_simp
    ring
  have hksum2 : (h / 3) * ((hi + hi) + 4 * ((k : ℝ) * hi) + 2 * (((k : ℝ) - 1) * hi)) =
      hi * (b - a) := by
    rw [hh, hcast2]
    field_simp
    ring
  constructor
  · rw [hexp, ← hksum]
    apply mul_le_mul_of_nonneg_left _ (by linarith)
    rw [hkcast] at hS2lo
    nlinarith [hga.1, hgbn'.1, hS1lo, hS2lo]
  · rw [hexp, ← hksum2]
    apply mul_le_mul_of_nonneg_left _ (by linarith)
    rw [hkcast] at hS2hi
    nlinarith [hga.2, hgbn'.2, hS1hi, hS2hi]

/-!
## The cosmology engine (`FlatLambdaCDM` in `src/cosmology.py`)
-/

/-- Speed of light in m/s (`C_LIGHT`). -/
def C_LIGHT : ℝ := 299792458.0

/-- Newton's constant in SI (`G_NEWTON`). -/
def G_NEWTON : ℝ := 6.67430e-11

/-- Meters per megaparsec (`MPC_TO_M`). -/
def MPC_TO_M : ℝ := 3.0856775814913673e22

/-- Meters per kilometer (`KM_TO_M`). -/
def KM_TO_M : ℝ := 1000.0

/-- Immutable state of a `FlatLambdaCDM` instance after `__init__`. -/
structure FlatLambdaCDM where
  H0_km_s_Mpc : ℝ
  Om0 : ℝ
  Ode0 : ℝ
  n_int : ℕ


/-- The `FlatLambdaCDM.__init__` constructor: `Ode0 = None` defaults to
`1 - Om0`, and an odd `n_int` is incremented by one to enforce evenness.
(`n_int` is a Python int; the repository only constructs it with positive
values, so it is modelled as a natural number.) -/
def mkFlatLambdaCDM (H0_km_s_Mpc Om0 : ℝ) (Ode0 : Option ℝ) (n_int : ℕ) : FlatLambdaCDM where
  H0_km_s_Mpc := H0_km_s_Mpc
  Om0 := Om0
  Ode0 := match Ode0 with
    | none => 1 - Om0
    | some o => o
  n_int := if n_int % 2 ≠ 0 then n_int + 1 else n_int


namespace FlatLambdaCDM

/-- H0 in SI units (s⁻¹), stored by `__init__`. -/
def H0_SI (c : FlatLambdaCDM) : ℝ := (c.H0_km_s_Mpc * KM_TO_M) / MPC_TO_M

/-- Dimensionless expansion function `E(z)`; `np.sqrt` of a negative radicand
yields NaN (the numpy branch used inside the quadrature; the scalar fallback
would raise — no theorem below evaluates `E` at a negative radicand). -/
def E (c : FlatLambdaCDM) (z : ℝ) : PyF :=
  if c.Om0 * (1 + z) ^ 3 + c.Ode0 < 0 then PyF.nan
  else PyF.val (Real.sqrt (c.Om0 * (1 + z) ^ 3 + c.Ode0))

/-- The integrand `invE(x) = 1.0 / E(x)` nested in `comoving_distance`. -/
def invE (c : FlatLambdaCDM) (x : ℝ) : PyF := PyF.val 1 / c.E x

/-- Line-of-sight comoving distance `D_C(z)` in meters; `ValueError` for
`z < 0` (and from `_simpson_integrate` if `n_int` is not positive even —
impossible after the constructor with a positive `n`). -/
def comoving_distance (c : FlatLambdaCDM) (z : ℝ) : Except Unit PyF :=
  if z < 0 then .error ()
  else if 0 < z then
    match simpson_integrate c.invE 0 z c.n_int with
    | none => .error ()
    | some integral => .ok (PyF.val (C_LIGHT / c.H0_SI) * integral)
  else .ok (PyF.val (C_LIGHT / c.H0_SI) * PyF.val 0)

/-- Angular diameter distance `D_A(z) = D_C(z) / (1+z)`; `ValueError` for `z < 0`. -/
def angular_diameter_distance (c : FlatLambdaCDM) (z : ℝ) : Except Unit PyF :=
  if z < 0 then .error ()
  else do
    let Dc ← c.comoving_distance z
    return Dc / PyF.val (1 + z)

/-- Angular diameter distance between two redshifts,
`D_A(z1, z2) = (D_C(z2) - D_C(z1)) / (1 + z2)`; `ValueError` for a negative
redshift, NaN sentinel for `z2 ≤ z1`. -/
def angular_diameter_distance_z1z2 (c : FlatLambdaCDM) (z1 z2 : ℝ) : Except Unit PyF :=
  if z1 < 0 ∨ z2 < 0 then .error ()
  else if z2 ≤ z1 then .ok PyF.nan
  else do
    let Dc1 ← c.comoving_distance z1
    let Dc2 ← c.comoving_distance z2
    return (Dc2 - Dc1) / PyF.val (1 + z2)

/-- Critical surface density `Σ_crit(z_l, z_s)` in kg/m²; NaN for
`z_s ≤ z_l` or a non-positive / non-finite intermediate distance. -/
def sigma_crit (c : FlatLambdaCDM) (z_l z_s : ℝ) : Except Unit PyF :=
  if z_s ≤ z_l then .ok PyF.nan
  else do
    let D_l ← c.angular_diameter_distance z_l
    let D_s ← c.angular_diameter_distance z_s
    let D_ls ← c.angular_diameter_distance_z1z2 z_l z_s
    if D_l.nonposOrNan ∨ D_s.nonposOrNan ∨ D_ls.nonposOrNan then return PyF.nan
    else return PyF.val (C_LIGHT ^ 2 / (4 * Real.pi * G_NEWTON)) * (D_s / (D_l * D_ls))

end FlatLambdaCDM

/-!
## Input validation (`validate_lens_inputs` in `src/validate.py`)

Raw catalogue fields are arbitrary Python objects; the values that are
distinguishable to the validator are: `None`, a non-numeric object
(`float(x)` raises `TypeError`/`ValueError`), a NaN float, an infinite
float, and a finite number.
-/

/-- A raw per-system input value as seen by `validate_lens_inputs`. -/
inductive Raw where
  | null
  | nonNumeric
  | nanv
  | infv
  | num (x : ℝ)


/-- Python `x is None` for a raw value. -/
def Raw.isNone : Raw → Bool
  | .null => true
  | _ => false

/-- A field name passed to `_to_float` for flag construction. -/
inductive FieldName where
  | thetaE
  | zl
  | zs
deriving DecidableEq


/-- Validity flags; constructor names follow the strings built by the source
(all flags carry the `flag_` prefix there, with the coercion flags generated
as `'flag_missing_%s' % name` and so on). -/
inductive LensFlag where
  | flag_missing (f : FieldName)
  | flag_non_numeric (f : FieldName)
  | flag_nan (f : FieldName)
  | flag_inf (f : FieldName)
  | flag_thetaE_nonpositive
  | flag_zl_negative
  | flag_zs_negative
  | flag_zs_le_zl
  | flag_invalid_h
  | flag_nonfinite_D_l
  | flag_nonfinite_Sigma_crit
  | flag_nonfinite_M_inf
  | flag_nonfinite_lnSigma_at_zs
  | flag_used_forward_diff
  | flag_used_backward_diff
  | flag_nonfinite_S
deriving DecidableEq


/-- The nested `_to_float(x, name)` coercion: returns the coerced value (or
`None`) together with the flags it appends. -/
def to_float (x : Raw) (name : FieldName) : Option ℝ × List LensFlag :=
  match x with
  | .null => (none, [.flag_missing name])
  | .nonNumeric => (none, [.flag_non_numeric name])
  | .nanv => (none, [.flag_nan name])
  | .infv => (none, [.flag_inf name])
  | .num v => (some v, [])

/-- The `normalized` dict: a key can be absent (outer `none`), or present and
bound to Python `None` (inner `none`), or present with a float value. -/
structure NormMap where
  theta_E_arcsec : Option (Option ℝ)
  z_l : Option (Option ℝ)
  z_s : Option (Option ℝ)


/-- The empty `normalized` dict. -/
def NormMap.empty : NormMap := ⟨none, none, none⟩

/-- Result dict of `validate_lens_inputs`. -/
structure ValidationResult where
  is_valid : Bool
  flags : List LensFlag
  normalized : NormMap


/-- The `validate_lens_inputs(theta_E_arcsec, z_l, z_s, require_zs, strict)`
validator, flags appended in source order. -/
def validate_lens_inputs (theta_E_arcsec z_l z_s : Raw)
    (require_zs : Bool := true) (strict : Bool := true) : ValidationResult :=
  let th := (to_float theta_E_arcsec .thetaE).1
  let zl := (to_float z_l .zl).1
  let zsAttempted := require_zs || !z_s.isNone
  let zs := if zsAttempted then (to_float z_s .zs).1 else none
  let coercionFlags :=
    (to_float theta_E_arcsec .thetaE).2 ++ (to_float z_l .zl).2 ++
      (if zsAttempted then (to_float z_s .zs).2 else [])
  let thetaFlags := match th with
    | some t => if t ≤ 0 then [LensFlag.flag_thetaE_nonpositive] else []
    | none => []
  let zlFlags := match zl with
    | some a => if a < 0 then [LensFlag.flag_zl_negative] else []
    | none => []
  -- the `require_zs` / `else` branches of the source perform the same two
  -- checks in the same order
  let zsNegFlags := match zs with
    | some b => if b < 0 then [LensFlag.flag_zs_negative] else []
    | none => []
  let zsLeFlags := match zs, zl with
    | some b, some a => if ¬ (a < b) then [LensFlag.flag_zs_le_zl] else []
    | _, _ => []
  let flags := coercionFlags ++ thetaFlags ++ zlFlags ++ zsNegFlags ++ zsLeFlags
  let is_valid := if strict then flags.isEmpty else true
  let normalized : NormMap :=
    if is_valid then
      { theta_E_arcsec := some th
        z_l := some zl
        z_s := match zs with
          | some b => some (some b)
          | none => none }
    else NormMap.empty
  ⟨is_valid, flags, normalized⟩

/-!
## The sensitivity kernel (`compute_sensitivity` in `src/sensitivity.py`)
-/

/-- Arcseconds to radians (`ARCSEC_TO_RAD = (math.pi / 180.0) / 3600.0`). -/
def ARCSEC_TO_RAD : ℝ := (Real.pi / 180) / 3600

/-- Result dict of `compute_sensitivity`.  The three echoed inputs hold the
raw arguments until the kernel succeeds, at which point they are overwritten
with the normalized floats. -/
structure SensitivityResult where
  is_valid : Bool
  flags : List LensFlag
  theta_E_arcsec : Raw
  z_l : Raw
  z_s : Raw
  theta_E_rad : PyF
  D_l_m : PyF
  Sigma_crit_kg_m2 : PyF
  M_inf_kg : PyF
  S_dlnM_dzs : PyF
  dM_over_M_for_delta_z : PyF


/-- The nested `ln_sigma(zv)` helper of `compute_sensitivity`: NaN unless
`Σ_crit(z_l, zv)` is finite and positive, else its natural log. -/
def ln_sigma (cosmo : FlatLambdaCDM) (zl zv : ℝ) : Except Unit PyF := do
  let s ← cosmo.sigma_crit zl zv
  match s with
  | .nan => return PyF.nan
  | .val x => if x ≤ 0 then return PyF.nan else return PyF.val (Real.log x)

/-- The `compute_sensitivity(theta_E_arcsec, z_l, z_s, cosmo, h, delta_z)`
kernel.  `h` is `None` or a float (the NaN/infinite cases of `h` are outside
the modelled input domain); `delta_z` is a float, possibly NaN.  The
`.error` results model uncaught exceptions escaping the call. -/
def compute_sensitivity (theta_E_arcsec z_l z_s : Raw) (cosmo : FlatLambdaCDM)
    (h : Option ℝ) (delta_z : PyF) : Except Unit SensitivityResult :=
  let out0 : SensitivityResult :=
    { is_valid := false
      flags := []
      theta_E_arcsec := theta_E_arcsec
      z_l := z_l
      z_s := z_s
      theta_E_rad := PyF.nan
      D_l_m := PyF.nan
      Sigma_crit_kg_m2 := PyF.nan
      M_inf_kg := PyF.nan
      S_dlnM_dzs := PyF.nan
      dM_over_M_for_delta_z := PyF.nan }
  let v := validate_lens_inputs theta_E_arcsec z_l z_s true true
  if v.is_valid = false then .ok { out0 with flags := v.flags }
  else
    match v.normalized.theta_E_arcsec, v.normalized.z_l, v.normalized.z_s with
    | some (some th), some (some zl), some (some zs) =>
      (match h with
       | none => .ok { out0 with flags := [.flag_invalid_h] }
       | some hv =>
         if hv ≤ 0 then .ok { out0 with flags := [.flag_invalid_h] }
         else do
           let theta_rad := th * ARCSEC_TO_RAD
           let D_l ← cosmo.angular_diameter_distance zl
           let Sigma ← cosmo.sigma_crit zl zs
           let out1 := { out0 with
             theta_E_rad := PyF.val theta_rad
             D_l_m := D_l
             Sigma_crit_kg_m2 := Sigma }
           if ¬ D_l.posVal then .ok { out1 with flags := [.flag_nonfinite_D_l] }
           else if ¬ Sigma.posVal then .ok { out1 with flags := [.flag_nonfinite_Sigma_crit] }
           else
             -- M_inf = pi * (D_l * theta_rad) ** 2 * Sigma
             let R := D_l * PyF.val theta_rad
             let M_inf := PyF.val Real.pi * (R * R) * Sigma
             let out2 := { out1 with M_inf_kg := M_inf }
             if ¬ M_inf.posVal then .ok { out2 with flags := [.flag_nonfinite_M_inf] }
             else
               let z_minus := zs - hv
               let z_plus := zs + hv
               -- a successful difference lands here: store S, re-check it,
               -- then fill the derived mapping and echo normalized inputs
               let finish : PyF → List LensFlag → Except Unit SensitivityResult := fun S flgs =>
                 let out3 := { out2 with S_dlnM_dzs := S }
                 if ¬ S.isVal then .ok { out3 with flags := [.flag_nonfinite_S] }
                 else .ok { out3 with
                   is_valid := true
                   flags := flgs
                   dM_over_M_for_delta_z := S * delta_z
                   theta_E_arcsec := .num th
                   z_l := .num zl
                   z_s := .num zs }
               do
                 let ln_sp ← ln_sigma cosmo zl z_plus
                 let ln_sm ← ln_sigma cosmo zl z_minus
                 match ln_sp, ln_sm with
                 | .val p, .val q => finish (PyF.val ((p - q) / (2 * hv))) []
                 | _, _ => do
                   let ln_s0 ← ln_sigma cosmo zl zs
                   match ln_s0 with
                   | .nan => .ok { out2 with flags := [.flag_nonfinite_lnSigma_at_zs] }
                   | .val s0 => do
                     let ln_sp2 ← ln_sigma cosmo zl z_plus
                     match ln_sp2 with
                     | .val p => finish (PyF.val ((p - s0) / hv)) [.flag_used_forward_diff]
                     | .nan => do
                       let ln_sm2 ← ln_sigma cosmo zl z_minus
                       match ln_sm2 with
                       | .val q => finish (PyF.val ((s0 - q) / hv)) [.flag_used_backward_diff]
                       | .nan => .ok { out2 with flags := [.flag_nonfinite_S] })
    | _, _, _ => .error ()

/-!
## Generic evaluation lemmas for the distance engine
-/

@[simp] theorem except_bind_ok {α β : Type} (a : α) (f : α → Except Unit β) :
    (Except.ok a >>= f) = f a := rfl

@[simp] theorem except_bind_error {α β : Type} (f : α → Except Unit β) :
    ((Except.error () : Except Unit α) >>= f) = Except.error () := rfl

@[simp] theorem except_pure {α : Type} (a : α) :
    (pure a : Except Unit α) = Except.ok a := rfl

theorem inv_sqrt_mem {r lo hi : ℝ} (hlo : 0 < lo) (h1 : lo ^ 2 ≤ r) (h2 : r ≤ hi ^ 2)
    (hhi : 0 ≤ hi) : 1 / hi ≤ 1 / Real.sqrt r ∧ 1 / Real.sqrt r ≤ 1 / lo := by
  have hs1 : lo ≤ Real.sqrt r := by
    have := Real.sqrt_le_sqrt h1
    rwa [Real.sqrt_sq hlo.le] at this
  have hs2 : Real.sqrt r ≤ hi := by
    have := Real.sqrt_le_sqrt h2
    rwa [Real.sqrt_sq hhi] at this
  have hspos : 0 < Real.sqrt r := lt_of_lt_of_le hlo hs1
  constructor
  · exact one_div_le_one_div_of_le hspos hs2
  · exact one_div_le_one_div_of_le hlo hs1

namespace FlatLambdaCDM

/-- A cosmology with non-negative matter density and positive total density:
the radicand of `E` is then positive at every non-negative redshift, so the
numpy and scalar quadrature branches agree and `E` is finite positive. -/
def nice (c : FlatLambdaCDM) : Prop := 0 ≤ c.Om0 ∧ 0 < c.Om0 + c.Ode0

theorem radicand_pos {c : FlatLambdaCDM} (hc : c.nice) {z : ℝ} (hz : 0 ≤ z) :
    0 < c.Om0 * (1 + z) ^ 3 + c.Ode0 := by
  obtain ⟨h1, h2⟩ := hc
  have hp : (1:ℝ) ≤ (1 + z) ^ 3 := one_le_pow₀ (by linarith)
  nlinarith [mul_le_mul_of_nonneg_left hp h1]

/-- The real-valued integrand `1/E` of a nice cosmology. -/
def invEreal (c : FlatLambdaCDM) (x : ℝ) : ℝ :=
  1 / Real.sqrt (c.Om0 * (1 + x) ^ 3 + c.Ode0)

theorem invE_eq_val {c : FlatLambdaCDM} (hc : c.nice) {x : ℝ} (hx : 0 ≤ x) :
    c.invE x = PyF.val (c.invEreal x) := by
  have h := radicand_pos hc hx
  rw [invE, E, if_neg (not_lt.mpr h.le), invEreal]
  simp

theorem H0_SI_pos {c : FlatLambdaCDM} (h : 0 < c.H0_km_s_Mpc) : 0 < c.H0_SI := by
  rw [H0_SI, KM_TO_M, MPC_TO_M]
  positivity

theorem scale_pos {c : FlatLambdaCDM} (h : 0 < c.H0_km_s_Mpc) : 0 < C_LIGHT / c.H0_SI := by
  have := H0_SI_pos h
  rw [C_LIGHT]
  positivity

/-- Evaluating `comoving_distance` of a nice cosmology at a positive redshift:
the result is the scaled real Simpson value of `1/E`. -/
theorem comoving_distance_eval {c : FlatLambdaCDM} (hc : c.nice) {k : ℕ}
    (hn : c.n_int = 2 * k) (hk : k ≠ 0) {z : ℝ} (hz : 0 < z) :
    c.comoving_distance z =
      .ok (PyF.val ((C_LIGHT / c.H0_SI) * simpsonReal c.invEreal 0 z c.n_int)) := by
  have hnodes : ∀ i : ℕ, i ≤ c.n_int →
      c.invE (0 + (i : ℝ) * ((z - 0) / (c.n_int : ℝ))) =
        PyF.val (c.invEreal (0 + (i : ℝ) * ((z - 0) / (c.n_int : ℝ)))) := by
    intro i hi
    apply invE_eq_val hc
    have : (0:ℝ) ≤ (i : ℝ) * ((z - 0) / (c.n_int : ℝ)) := by
      apply mul_nonneg (Nat.cast_nonneg i)
      apply div_nonneg (by linarith) (Nat.cast_nonneg _)
    linarith
  have hne : c.n_int ≠ 0 := by omega
  have hev : c.n_int % 2 = 0 := by omega
  rw [comoving_distance, if_neg (not_lt.mpr hz.le), if_pos hz,
    simpson_integrate_eq_real c.invE c.invEreal 0 z c.n_int hne hev hnodes]
  simp

/-- The value of `comoving_distance` at `z = 0` is exactly zero. -/
theorem comoving_distance_zero (c : FlatLambdaCDM) :
    c.comoving_distance 0 = .ok (PyF.val 0) := by
  rw [comoving_distance, if_neg (by norm_num), if_neg (by norm_num)]
  simp

/-- Bracket `comoving_distance` of a nice cosmology between rational multiples
of `z`, given a bracket on `1/E` over `[0, z]`. -/
theorem comoving_distance_bounds {c : FlatLambdaCDM} (hc : c.nice)
    (hH : 0 < c.H0_km_s_Mpc) {k : ℕ} (hn : c.n_int = 2 * k) (hk : k ≠ 0)
    {z lo hi : ℝ} (hz : 0 < z)
    (hb : ∀ x, 0 ≤ x → x ≤ z → lo ≤ c.invEreal x ∧ c.invEreal x ≤ hi) :
    ∃ d : ℝ, c.comoving_distance z = .ok (PyF.val d) ∧
      (C_LIGHT / c.H0_SI) * (lo * z) ≤ d ∧ d ≤ (C_LIGHT / c.H0_SI) * (hi * z) := by
  refine ⟨(C_LIGHT / c.H0_SI) * simpsonReal c.invEreal 0 z c.n_int,
    comoving_distance_eval hc hn hk hz, ?_, ?_⟩
  · have := (simpsonReal_bounds c.invEreal 0 z k hk (by linarith) lo hi hb).1
    rw [← hn] at this
    have hsc := scale_pos hH
    have := mul_le_mul_of_nonneg_left this hsc.le
    simpa using this
  · have := (simpsonReal_bounds c.invEreal 0 z k hk (by linarith) lo hi hb).2
    rw [← hn] at this
    have hsc := scale_pos hH
    have := mul_le_mul_of_nonneg_left this hsc.le
    simpa using this

/-- Evaluating `angular_diameter_distance` of a nice cosmology at a positive
redshift. -/
theorem angular_diameter_distance_eval {c : FlatLambdaCDM} {z d : ℝ} (hz : 0 ≤ z)
    (hd : c.comoving_distance z = .ok (PyF.val d)) :
    c.angular_diameter_distance z = .ok (PyF.val (d / (1 + z))) := by
  rw [angular_diameter_distance, if_neg (not_lt.mpr hz)]
  simp [hd]

/-- Evaluating `angular_diameter_distance_z1z2` on an ordered pair of
non-negative redshifts with finite comoving distances. -/
theorem angular_diameter_distance_z1z2_eval {c : FlatLambdaCDM} {z1 z2 d1 d2 : ℝ}
    (h1 : 0 ≤ z1) (h2 : z1 < z2)
    (hd1 : c.comoving_distance z1 = .ok (PyF.val d1))
    (hd2 : c.comoving_distance z2 = .ok (PyF.val d2)) :
    c.angular_diameter_distance_z1z2 z1 z2 = .ok (PyF.val ((d2 - d1) / (1 + z2))) := by
  rw [angular_diameter_distance_z1z2, if_neg (by push_neg; constructor <;> linarith),
    if_neg (not_le.mpr h2)]
  simp [hd1, hd2]

/-- `sigma_crit` evaluated on a geometry whose three intermediate distances
are finite and positive. -/
theorem sigma_crit_eval_pos {c : FlatLambdaCDM} {zl zs dl ds dls : ℝ}
    (hzs : zl < zs)
    (hdl : c.angular_diameter_distance zl = .ok (PyF.val dl))
    (hds : c.angular_diameter_distance zs = .ok (PyF.val ds))
    (hdls : c.angular_diameter_distance_z1z2 zl zs = .ok (PyF.val dls))
    (hdlp : 0 < dl) (hdsp : 0 < ds) (hdlsp : 0 < dls) :
    c.sigma_crit zl zs =
      .ok (PyF.val (C_LIGHT ^ 2 / (4 * Real.pi * G_NEWTON) * (ds / (dl * dls)))) := by
  rw [sigma_crit, if_neg (not_le.mpr hzs)]
  simp only [hdl, hds, hdls, except_bind_ok]
  rw [if_neg]
  · simp
  · push_neg
    refine ⟨by simpa using not_le.mpr hdlp, by simpa using not_le.mpr hdsp,
      by simpa using not_le.mpr hdlsp⟩

/-- `sigma_crit` is the NaN sentinel whenever an intermediate distance is
computed but fails the positivity / finiteness test. -/
theorem sigma_crit_eval_nan {c : FlatLambdaCDM} {zl zs : ℝ} {dl ds dls : PyF}
    (hzs : zl < zs)
    (hdl : c.angular_diameter_distance zl = .ok dl)
    (hds : c.angular_diameter_distance zs = .ok ds)
    (hdls : c.angular_diameter_distance_z1z2 zl zs = .ok dls)
    (hbad : dl.nonposOrNan ∨ ds.nonposOrNan ∨ dls.nonposOrNan) :
    c.sigma_crit zl zs = .ok PyF.nan := by
  rw [sigma_crit, if_neg (not_le.mpr hzs)]
  simp only [hdl, hds, hdls, except_bind_ok]
  rw [if_pos hbad]
  simp

/-- `sigma_crit` short-circuits to NaN on `z_s ≤ z_l`, before any distance
(and hence before any domain check) is touched. -/
theorem sigma_crit_of_le {c : FlatLambdaCDM} {zl zs : ℝ} (h : zs ≤ zl) :
    c.sigma_crit zl zs = .ok PyF.nan := by
  rw [sigma_crit, if_pos h]

/-- With `z_s > z_l` and a negative lens redshift, `sigma_crit` propagates the
`ValueError` raised by `angular_diameter_distance`. -/
theorem sigma_crit_raises {c : FlatLambdaCDM} {zl zs : ℝ} (h : zl < zs) (hneg : zl < 0) :
    c.sigma_crit zl zs = .error () := by
  rw [sigma_crit, if_neg (not_le.mpr h)]
  rw [angular_diameter_distance, if_pos hneg]
  simp

end FlatLambdaCDM

/-!
## The standard configuration `FlatLambdaCDM(70.0, 0.3)`

Facts about the default cosmology of the repository's tests and batch
scripts, with the Simpson resolution `n` left free.
-/

/-- The standard cosmology `FlatLambdaCDM(H0_km_s_Mpc=70.0, Om0=0.3, n_int=n)`. -/
def cosmoStd (n : ℕ) : FlatLambdaCDM := mkFlatLambdaCDM 70 0.3 none n

theorem cosmoStd_Om0 (n : ℕ) : (cosmoStd n).Om0 = 0.3 := rfl

theorem cosmoStd_Ode0 (n : ℕ) : (cosmoStd n).Ode0 = 1 - 0.3 := rfl

theorem cosmoStd_nice (n : ℕ) : (cosmoStd n).nice := by
  constructor <;> norm_num [cosmoStd, mkFlatLambdaCDM]

theorem cosmoStd_H0_pos (n : ℕ) : 0 < (cosmoStd n).H0_km_s_Mpc := by
  norm_num [cosmoStd, mkFlatLambdaCDM]

/-- The constructor coerces any positive `n` to a positive even `n_int`. -/
theorem mk_n_int_even (H0 Om0 : ℝ) (od : Option ℝ) (n : ℕ) (hn : n ≠ 0) :
    ∃ k : ℕ, k ≠ 0 ∧ (mkFlatLambdaCDM H0 Om0 od n).n_int = 2 * k := by
  refine ⟨(if n % 2 ≠ 0 then n + 1 else n) / 2, ?_, ?_⟩
  · split <;> omega
  · simp only [mkFlatLambdaCDM]
    split <;> omega

/-- On `[0, 1.101]` the standard integrand `1/E` lies in `[1/2, 1]`:
the radicand `0.3 (1+x)³ + 0.7` lies in `[1, 4]` there. -/
theorem std_invE_bounds (n : ℕ) :
    ∀ x : ℝ, 0 ≤ x → x ≤ 1.101 →
      1 / 2 ≤ (cosmoStd n).invEreal x ∧ (cosmoStd n).invEreal x ≤ 1 := by
  intro x hx hx'
  have hr1 : (1:ℝ) ^ 2 ≤ (cosmoStd n).Om0 * (1 + x) ^ 3 + (cosmoStd n).Ode0 := by
    rw [cosmoStd_Om0, cosmoStd_Ode0]
    have hp : (1:ℝ) ≤ (1 + x) ^ 3 := one_le_pow₀ (by linarith)
    nlinarith
  have hr2 : (cosmoStd n).Om0 * (1 + x) ^ 3 + (cosmoStd n).Ode0 ≤ (2:ℝ) ^ 2 := by
    rw [cosmoStd_Om0, cosmoStd_Ode0]
    have hp : (1 + x) ^ 3 ≤ (2.101:ℝ) ^ 3 := by
      apply pow_le_pow_left₀ (by linarith) (by linarith)
    nlinarith
  have := inv_sqrt_mem (by norm_num : (0:ℝ) < 1) hr1 hr2 (by norm_num)
  rw [FlatLambdaCDM.invEreal]
  constructor
  · simpa using this.1
  · simpa using this.2

/-- Comoving distance of the standard cosmology bracketed on `(0, 1.101]`:
`scale * z/2 ≤ D_C(z) ≤ scale * z`. -/
theorem std_comoving (n : ℕ) (hn : n ≠ 0) {z : ℝ} (hz : 0 < z) (hz' : z ≤ 1.101) :
    ∃ d : ℝ, (cosmoStd n).comoving_distance z = .ok (PyF.val d) ∧
      (C_LIGHT / (cosmoStd n).H0_SI) * (z / 2) ≤ d ∧
      d ≤ (C_LIGHT / (cosmoStd n).H0_SI) * z := by
  obtain ⟨k, hk, hke⟩ := mk_n_int_even 70 0.3 none n hn
  obtain ⟨d, hd, h1, h2⟩ := FlatLambdaCDM.comoving_distance_bounds (cosmoStd_nice n)
    (cosmoStd_H0_pos n) hke hk hz
    (fun x hx hx' => std_invE_bounds n x hx (le_trans hx' hz'))
  refine ⟨d, hd, ?_, ?_⟩
  · calc C_LIGHT / (cosmoStd n).H0_SI * (z / 2) =
        C_LIGHT / (cosmoStd n).H0_SI * (1 / 2 * z) := by ring
    _ ≤ d := h1
  · calc d ≤ C_LIGHT / (cosmoStd n).H0_SI * (1 * z) := h2
    _ = C_LIGHT / (cosmoStd n).H0_SI * z := by ring

/-- The three angular-diameter distances of the standard geometry
`z_l = 0.3 < z_s` (any `z_s ∈ [1, 1.101]`) are finite and positive, and
`sigma_crit` is finite and strictly positive there. -/
theorem std_sigma_pos (n : ℕ) (hn : n ≠ 0) {zs : ℝ} (hzs1 : 1 ≤ zs) (hzs2 : zs ≤ 1.101) :
    ∃ s : ℝ, (cosmoStd n).sigma_crit 0.3 zs = .ok (PyF.val s) ∧ 0 < s := by
  have hsc := FlatLambdaCDM.scale_pos (c := cosmoStd n) (cosmoStd_H0_pos n)
  obtain ⟨d1, hd1, hd1lo, hd1hi⟩ := std_comoving n hn (by norm_num : (0:ℝ) < 0.3) (by norm_num)
  obtain ⟨d2, hd2, hd2lo, hd2hi⟩ := std_comoving n hn (by linarith : (0:ℝ) < zs) hzs2
  have hd1pos : 0 < d1 := lt_of_lt_of_le (by positivity) hd1lo
  have hdlt : d1 < d2 := by
    calc d1 ≤ C_LIGHT / (cosmoStd n).H0_SI * 0.3 := hd1hi
    _ < C_LIGHT / (cosmoStd n).H0_SI * (zs / 2) := by
        apply mul_lt_mul_of_pos_left _ hsc
        linarith
    _ ≤ d2 := hd2lo
  have hDl := FlatLambdaCDM.angular_diameter_distance_eval (c := cosmoStd n)
    (by norm_num : (0:ℝ) ≤ 0.3) hd1
  have hDs := FlatLambdaCDM.angular_diameter_distance_eval (c := cosmoStd n)
    (by linarith : (0:ℝ) ≤ zs) hd2
  have hDls := FlatLambdaCDM.angular_diameter_distance_z1z2_eval (c := cosmoStd n)
    (by norm_num : (0:ℝ) ≤ 0.3) (by linarith : (0.3:ℝ) < zs) hd1 hd2
  have hDlp : 0 < d1 / (1 + 0.3) := by positivity
  have hDsp : 0 < d2 / (1 + zs) := by
    have : (0:ℝ) < d2 := lt_trans hd1pos hdlt
    positivity
  have hDlsp : 0 < (d2 - d1) / (1 + zs) := by
    apply div_pos (by linarith) (by linarith)
  rw [FlatLambdaCDM.sigma_crit_eval_pos (by linarith : (0.3:ℝ) < zs) hDl hDs hDls hDlp hDsp hDlsp]
  refine ⟨_, rfl, ?_⟩
  have hpi := Real.pi_pos
  rw [C_LIGHT, G_NEWTON]
  positivity

/-!
## Evaluation lemmas for the validator and the kernel
-/

/-- A fully well-formed numeric triple passes strict validation with no flags
and is normalized verbatim. -/
theorem validate_num_ok (θ a b : ℝ) (rq st : Bool) (hθ : 0 < θ) (ha : 0 ≤ a)
    (hb : a < b) :
    validate_lens_inputs (.num θ) (.num a) (.num b) rq st =
      ⟨true, [], ⟨some (some θ), some (some a), some (some b)⟩⟩ := by
  have h1 : ¬ (θ ≤ 0) := not_le.mpr hθ
  have h2 : ¬ (a < 0) := not_lt.mpr ha
  have h3 : ¬ (b < 0) := not_lt.mpr (by linarith)
  simp [validate_lens_inputs, to_float, Raw.isNone, h1, h2, h3, hb]

/-- `ln_sigma` at a finite positive `Σ_crit` value. -/
theorem ln_sigma_eval_pos {c : FlatLambdaCDM} {zl zv s : ℝ}
    (h : c.sigma_crit zl zv = .ok (PyF.val s)) (hs : 0 < s) :
    ln_sigma c zl zv = .ok (PyF.val (Real.log s)) := by
  rw [ln_sigma]
  simp [h, not_le.mpr hs]

/-- `ln_sigma` at a NaN `Σ_crit` value. -/
theorem ln_sigma_eval_nan {c : FlatLambdaCDM} {zl zv : ℝ}
    (h : c.sigma_crit zl zv = .ok PyF.nan) :
    ln_sigma c zl zv = .ok PyF.nan := by
  rw [ln_sigma]
  simp [h]

/-- `ln_sigma` at a finite non-positive `Σ_crit` value. -/
theorem ln_sigma_eval_nonpos {c : FlatLambdaCDM} {zl zv s : ℝ}
    (h : c.sigma_crit zl zv = .ok (PyF.val s)) (hs : s ≤ 0) :
    ln_sigma c zl zv = .ok PyF.nan := by
  rw [ln_sigma]
  simp [h, hs]

theorem ARCSEC_TO_RAD_pos : 0 < ARCSEC_TO_RAD := by
  rw [ARCSEC_TO_RAD]
  have := Real.pi_pos
  positivity

/-- Full evaluation of `compute_sensitivity` on the standard configuration
`H0=70, Om0=0.3, n=1024, z_l=0.3, z_s=1.1, h=1e-3`: the run is valid with no
flags, takes the central difference, and its `S` does not depend on `θ_E` or
on `delta_z`. -/
theorem sens_std_eval :
    ∃ dl sg sp sm : ℝ, 0 < dl ∧ 0 < sg ∧ 0 < sp ∧ 0 < sm ∧
      ∀ θ : ℝ, 0 < θ → ∀ dz : PyF,
        compute_sensitivity (.num θ) (.num 0.3) (.num 1.1) (cosmoStd 1024)
            (some 0.001) dz =
          .ok { is_valid := true
                flags := []
                theta_E_arcsec := .num θ
                z_l := .num 0.3
                z_s := .num 1.1
                theta_E_rad := .val (θ * ARCSEC_TO_RAD)
                D_l_m := .val dl
                Sigma_crit_kg_m2 := .val sg
                M_inf_kg := .val (Real.pi *
                  ((dl * (θ * ARCSEC_TO_RAD)) * (dl * (θ * ARCSEC_TO_RAD))) * sg)
                S_dlnM_dzs := .val ((Real.log sp - Real.log sm) / (2 * 0.001))
                dM_over_M_for_delta_z :=
                  PyF.val ((Real.log sp - Real.log sm) / (2 * 0.001)) * dz } := by
  have hn : (1024 : ℕ) ≠ 0 := by norm_num
  obtain ⟨d1, hd1, hd1lo, hd1hi⟩ := std_comoving 1024 hn (by norm_num : (0:ℝ) < 0.3) (by norm_num)
  have hsc := FlatLambdaCDM.scale_pos (c := cosmoStd 1024) (cosmoStd_H0_pos 1024)
  have hd1pos : 0 < d1 := lt_of_lt_of_le (by positivity) hd1lo
  have hDl := FlatLambdaCDM.angular_diameter_distance_eval (c := cosmoStd 1024)
    (by norm_num : (0:ℝ) ≤ 0.3) hd1
  obtain ⟨sg, hsg, hsgpos⟩ := std_sigma_pos 1024 hn (by norm_num : (1:ℝ) ≤ 1.1) (by norm_num)
  obtain ⟨sp, hsp, hsppos⟩ := std_sigma_pos 1024 hn (by norm_num : (1:ℝ) ≤ 1.101) (by norm_num)
  obtain ⟨sm, hsm, hsmpos⟩ := std_sigma_pos 1024 hn (by norm_num : (1:ℝ) ≤ 1.099) (by norm_num)
  have hdl : 0 < d1 / (1 + 0.3) := by positivity
  refine ⟨d1 / (1 + 0.3), sg, sp, sm, hdl, hsgpos, hsppos, hsmpos, ?_⟩
  intro θ hθ dz
  have hval := validate_num_ok θ 0.3 1.1 true true hθ (by norm_num) (by norm_num)
  have hlnp : ln_sigma (cosmoStd 1024) 0.3 (1.1 + 0.001) = .ok (PyF.val (Real.log sp)) := by
    rw [show (1.1:ℝ) + 0.001 = 1.101 by norm_num]
    exact ln_sigma_eval_pos hsp hsppos
  have hlnm : ln_sigma (cosmoStd 1024) 0.3 (1.1 - 0.001) = .ok (PyF.val (Real.log sm)) := by
    rw [show (1.1:ℝ) - 0.001 = 1.099 by norm_num]
    exact ln_sigma_eval_pos hsm hsmpos
  have hMpos : 0 < Real.pi *
      ((d1 / (1 + 0.3) * (θ * ARCSEC_TO_RAD)) * (d1 / (1 + 0.3) * (θ * ARCSEC_TO_RAD))) * sg := by
    have hpi := Real.pi_pos
    have har := ARCSEC_TO_RAD_pos
    positivity
  have hMpos2 : 0 < Real.pi *
      (d1 / (13 / 10) * (θ * ARCSEC_TO_RAD) * (d1 / (13 / 10) * (θ * ARCSEC_TO_RAD))) * sg := by
    have hfac : 0 < d1 / (13 / 10 : ℝ) * (θ * ARCSEC_TO_RAD) :=
      mul_pos (div_pos hd1pos (by norm_num)) (mul_pos hθ ARCSEC_TO_RAD_pos)
    exact mul_pos (mul_pos Real.pi_pos (mul_pos hfac hfac)) hsgpos
  simp only [compute_sensitivity, hval, hDl, hsg, hlnp, hlnm, except_bind_ok,
    PyF.val_mul_val]
  norm_num
  rw [if_neg (by simp [hd1pos])]
  rw [if_neg (by simp [hsgpos])]
  rw [if_neg (by simp [hMpos2])]

/-!
## The spec-side Simpson formula and the quadrature refinement
-/

/-- Modelled from the spec's quadrature contract (for comparison with the
source's `_simpson_integrate`): `h = (b-a)/n`;
`result = (h/3) * [f(a) + f(b) + 4*Σ f(odd nodes) + 2*Σ f(even interior nodes)]`
where the nodes are `x_i = a + i*h`, `i = 0, …, n`. -/
def simpson_rule_spec (f : ℝ → PyF) (a b : ℝ) (n : ℕ) : PyF :=
  let h := (b - a) / (n : ℝ)
  PyF.val (h / 3) *
    ((f a + f b)
      + PyF.val 4 * (∑ i ∈ (Finset.range (n + 1)).filter (fun i => i % 2 = 1),
          f (a + (i : ℝ) * h))
      + PyF.val 2 * (∑ i ∈ (Finset.range (n + 1)).filter
          (fun i => 0 < i ∧ i < n ∧ i % 2 = 0), f (a + (i : ℝ) * h)))

/-- For a positive even `n` the source quadrature agrees exactly with the
spec's composite Simpson formula. -/
theorem simpson_code_eq_spec (f : ℝ → PyF) (a b : ℝ) (n : ℕ) (hn : n ≠ 0)
    (he : n % 2 = 0) :
    simpson_integrate f a b n = some (simpson_rule_spec f a b n) := by
  have hodd : (Finset.range (n + 1)).filter (fun i => i % 2 = 1) =
      (Finset.Ico 1 n).filter (fun i => i % 2 = 1) := by
    ext i
    simp only [Finset.mem_filter, Finset.mem_range, Finset.mem_Ico]
    omega
  have heven : (Finset.range (n + 1)).filter (fun i => 0 < i ∧ i < n ∧ i % 2 = 0) =
      (Finset.Ico 1 n).filter (fun i => i % 2 = 0) := by
    ext i
    simp only [Finset.mem_filter, Finset.mem_range, Finset.mem_Ico]
    omega
  rw [simpson_integrate, if_neg (by push_neg; exact ⟨hn, he⟩), simpson_rule_spec,
    hodd, heven]

/-!
## Claim theorems
-/

/-- C1.  `comoving_distance` raises a domain error for `z < 0`; returns 0
exactly for `z = 0`; and for `z > 0` returns `(c/H0_SI)` times the composite
Simpson approximation of `∫ 1/E` over `[0, z]` with the engine's even
subinterval count, where an odd `n` supplied at construction has been
incremented by one. -/
theorem C1_comoving_distance_simpson (H0 Om0 : ℝ) (od : Option ℝ) (n : ℕ)
    (hn : n ≠ 0) (z : ℝ) :
    (mkFlatLambdaCDM H0 Om0 od n).n_int = (if n % 2 = 1 then n + 1 else n) ∧
    (mkFlatLambdaCDM H0 Om0 od n).n_int % 2 = 0 ∧
    (z < 0 → (mkFlatLambdaCDM H0 Om0 od n).comoving_distance z = .error ()) ∧
    (z = 0 → (mkFlatLambdaCDM H0 Om0 od n).comoving_distance z = .ok (PyF.val 0)) ∧
    (0 < z → (mkFlatLambdaCDM H0 Om0 od n).comoving_distance z =
      .ok (PyF.val (C_LIGHT / (mkFlatLambdaCDM H0 Om0 od n).H0_SI) *
        simpson_rule_spec (mkFlatLambdaCDM H0 Om0 od n).invE 0 z
          (mkFlatLambdaCDM H0 Om0 od n).n_int)) := by
  have hni : (mkFlatLambdaCDM H0 Om0 od n).n_int = (if n % 2 = 1 then n + 1 else n) := by
    simp only [mkFlatLambdaCDM]
    rcases Nat.mod_two_eq_zero_or_one n with h | h <;> simp [h]
  have hev : (mkFlatLambdaCDM H0 Om0 od n).n_int % 2 = 0 := by
    rw [hni]
    rcases Nat.mod_two_eq_zero_or_one n with h | h <;> simp [h] <;> omega
  have hne : (mkFlatLambdaCDM H0 Om0 od n).n_int ≠ 0 := by
    rw [hni]
    split <;> omega
  refine ⟨hni, hev, fun hz => ?_, fun hz => ?_, fun hz => ?_⟩
  · rw [FlatLambdaCDM.comoving_distance, if_pos hz]
  · subst hz
    exact FlatLambdaCDM.comoving_distance_zero _
  · rw [FlatLambdaCDM.comoving_distance, if_neg (not_lt.mpr hz.le), if_pos hz,
      simpson_code_eq_spec _ 0 z _ hne hev]

/-- Witness for C1 at `n = 3` (odd, coerced to 4) and concrete redshifts. -/
theorem C1_comoving_distance_simpson_witness :
    (mkFlatLambdaCDM 70 0.3 none 3).n_int = 4 ∧
    (mkFlatLambdaCDM 70 0.3 none 3).comoving_distance (-1) = .error () ∧
    (mkFlatLambdaCDM 70 0.3 none 3).comoving_distance 0 = .ok (PyF.val 0) ∧
    (mkFlatLambdaCDM 70 0.3 none 3).comoving_distance 2 =
      .ok (PyF.val (C_LIGHT / (mkFlatLambdaCDM 70 0.3 none 3).H0_SI) *
        simpson_rule_spec (mkFlatLambdaCDM 70 0.3 none 3).invE 0 2
          (mkFlatLambdaCDM 70 0.3 none 3).n_int) := by
  have h := C1_comoving_distance_simpson 70 0.3 none 3 (by norm_num) 2
  have h' := C1_comoving_distance_simpson 70 0.3 none 3 (by norm_num) (-1)
  have h0 := C1_comoving_distance_simpson 70 0.3 none 3 (by norm_num) 0
  exact ⟨h.1, h'.2.2.1 (by norm_num), h0.2.2.2.1 rfl, h.2.2.2.2 (by norm_num)⟩

/-- C9.  `sigma_crit` tests `z_s ≤ z_l` before touching redshift domains: any
such pair (even with both redshifts negative) yields the NaN sentinel without
raising, while `z_s > z_l` with a negative redshift propagates the
`ValueError` of the underlying distance functions. -/
theorem C9_sigma_crit_order_of_checks (c : FlatLambdaCDM) (zl zs : ℝ) :
    (zs ≤ zl → c.sigma_crit zl zs = .ok PyF.nan) ∧
    (zl < zs → (zl < 0 ∨ zs < 0) → c.sigma_crit zl zs = .error ()) := by
  refine ⟨fun h => FlatLambdaCDM.sigma_crit_of_le h, fun h hneg => ?_⟩
  have hzl : zl < 0 := by
    rcases hneg with h1 | h1
    · exact h1
    · linarith
  exact FlatLambdaCDM.sigma_crit_raises h hzl

/-- Witness for C9: both-negative pair gives NaN; negative lens redshift with
`z_s > z_l` raises. -/
theorem C9_sigma_crit_order_of_checks_witness :
    (cosmoStd 2).sigma_crit (-0.5) (-1) = .ok PyF.nan ∧
    (cosmoStd 2).sigma_crit (-0.5) 0.5 = .error () := by
  exact ⟨(C9_sigma_crit_order_of_checks (cosmoStd 2) (-0.5) (-1)).1 (by norm_num),
    (C9_sigma_crit_order_of_checks (cosmoStd 2) (-0.5) 0.5).2 (by norm_num)
      (Or.inl (by norm_num))⟩

/-- C5.  `validate_lens_inputs(1.2, 0.8, 0.8, strict=True)` is invalid with
the `zs_le_zl` flag (source string `'flag_zs_le_zl'`) and an empty normalized
mapping; and whenever both `z_l` and `z_s` coerce to finite numbers with
`z_s ≤ z_l`, that flag is raised. -/
theorem C5_zs_le_zl_flag :
    (validate_lens_inputs (.num 1.2) (.num 0.8) (.num 0.8) true true =
      ⟨false, [.flag_zs_le_zl], NormMap.empty⟩) ∧
    ∀ (tE : Raw) (a b : ℝ) (rq st : Bool), b ≤ a →
      LensFlag.flag_zs_le_zl ∈
        (validate_lens_inputs tE (.num a) (.num b) rq st).flags := by
  constructor
  · norm_num [validate_lens_inputs, to_float, Raw.isNone, NormMap.empty]
  · intro tE a b rq st hba
    simp [validate_lens_inputs, to_float, Raw.isNone, not_lt.mpr hba]

/-- Witness for C5's universal part at a concrete equal-redshift input. -/
theorem C5_zs_le_zl_flag_witness :
    LensFlag.flag_zs_le_zl ∈
      (validate_lens_inputs (.num 1) (.num 0.5) (.num 0.5) false false).flags :=
  C5_zs_le_zl_flag.2 (.num 1) 0.5 0.5 false false le_rfl

/-- C8.  Under `strict=True` the validator's `is_valid` is exactly "no flags
raised"; under `strict=False` it is `True` regardless, with the same flags
still recorded. -/
theorem C8_strict_semantics (tE zL zS : Raw) (rq : Bool) :
    ((validate_lens_inputs tE zL zS rq true).is_valid = true ↔
      (validate_lens_inputs tE zL zS rq true).flags = []) ∧
    (validate_lens_inputs tE zL zS rq false).is_valid = true ∧
    (validate_lens_inputs tE zL zS rq false).flags =
      (validate_lens_inputs tE zL zS rq true).flags := by
  refine ⟨?_, rfl, rfl⟩
  show ((validate_lens_inputs tE zL zS rq true).flags.isEmpty = true ↔ _)
  exact List.isEmpty_iff

/-- C10.  With `strict=False`, a failed coercion of `theta_E_arcsec` or `z_l`
still yields `is_valid=True` and a normalized mapping in which both keys are
present, each bound to the (null) coerced value of its field. -/
theorem C10_nonstrict_normalized_nulls (tE zL zS : Raw) (rq : Bool)
    (hfail : (to_float tE .thetaE).1 = none ∨ (to_float zL .zl).1 = none) :
    (validate_lens_inputs tE zL zS rq false).is_valid = true ∧
    (validate_lens_inputs tE zL zS rq false).normalized.theta_E_arcsec =
      some ((to_float tE .thetaE).1) ∧
    (validate_lens_inputs tE zL zS rq false).normalized.z_l =
      some ((to_float zL .zl).1) := ⟨rfl, rfl, rfl⟩

/-- Witness for C10: a missing `theta_E_arcsec` and a non-numeric `z_l` under
non-strict validation. -/
theorem C10_nonstrict_normalized_nulls_witness :
    (validate_lens_inputs .null .nonNumeric (.num 1.1) true false).is_valid = true ∧
    (validate_lens_inputs .null .nonNumeric (.num 1.1) true false).normalized.theta_E_arcsec =
      some none ∧
    (validate_lens_inputs .null .nonNumeric (.num 1.1) true false).normalized.z_l =
      some none :=
  C10_nonstrict_normalized_nulls .null .nonNumeric (.num 1.1) true (Or.inl rfl)

/-- C4.  `sigma_crit` is the NaN sentinel for `z_s ≤ z_l` or for a
non-positive / non-finite intermediate distance, otherwise it is
`c²/(4πG) · D_s/(D_l·D_ls)`; at the standard configuration with
`z_l = 0.3, z_s = 1.1` (any positive quadrature resolution) it is finite and
strictly positive. -/
theorem C4_sigma_crit_value :
    (∀ (c : FlatLambdaCDM) (zl zs : ℝ), zs ≤ zl → c.sigma_crit zl zs = .ok PyF.nan) ∧
    (∀ (c : FlatLambdaCDM) (zl zs : ℝ) (dl ds dls : PyF), zl < zs →
      c.angular_diameter_distance zl = .ok dl →
      c.angular_diameter_distance zs = .ok ds →
      c.angular_diameter_distance_z1z2 zl zs = .ok dls →
      ((dl.nonposOrNan ∨ ds.nonposOrNan ∨ dls.nonposOrNan →
          c.sigma_crit zl zs = .ok PyF.nan) ∧
        ∀ x y w : ℝ, dl = .val x → ds = .val y → dls = .val w →
          0 < x → 0 < y → 0 < w →
          c.sigma_crit zl zs =
            .ok (PyF.val (C_LIGHT ^ 2 / (4 * Real.pi * G_NEWTON) * (y / (x * w)))))) ∧
    (∀ n : ℕ, n ≠ 0 →
      ∃ s : ℝ, (cosmoStd n).sigma_crit 0.3 1.1 = .ok (PyF.val s) ∧ 0 < s) := by
  refine ⟨fun c zl zs h => FlatLambdaCDM.sigma_crit_of_le h,
    fun c zl zs dl ds dls hzs hdl hds hdls => ⟨?_, ?_⟩,
    fun n hn => std_sigma_pos n hn (by norm_num) (by norm_num)⟩
  · exact fun hbad => FlatLambdaCDM.sigma_crit_eval_nan hzs hdl hds hdls hbad
  · intro x y w hx hy hw hxp hyp hwp
    subst hx hy hw
    exact FlatLambdaCDM.sigma_crit_eval_pos hzs hdl hds hdls hxp hyp hwp

/-- Witness for C4: the NaN short-circuit at an ordered pair, and positivity
at the standard `z_l = 0.3, z_s = 1.1` geometry with `n = 2`. -/
theorem C4_sigma_crit_value_witness :
    (cosmoStd 2).sigma_crit 1.1 0.3 = .ok PyF.nan ∧
    ∃ s : ℝ, (cosmoStd 2).sigma_crit 0.3 1.1 = .ok (PyF.val s) ∧ 0 < s :=
  ⟨C4_sigma_crit_value.1 (cosmoStd 2) 1.1 0.3 (by norm_num),
    C4_sigma_crit_value.2.2 2 (by norm_num)⟩

/-- C6.  Two standard-configuration runs (`H0=70, Om0=0.3, n=1024, h=1e-3,
z_l=0.3, z_s=1.1, delta_z=0.1`) differing only in `theta_E_arcsec ∈ {0.5, 2.0}`
are both valid and return `S_dlnM_dzs` values agreeing to within `1e-6` (they
agree exactly: the kernel's `S` never reads `theta_E`). -/
theorem C6_S_invariant_to_thetaE :
    ∃ S1 S2 : ℝ,
      Except.map SensitivityResult.is_valid
        (compute_sensitivity (.num 0.5) (.num 0.3) (.num 1.1) (cosmoStd 1024)
          (some 0.001) (.val 0.1)) = .ok true ∧
      Except.map SensitivityResult.S_dlnM_dzs
        (compute_sensitivity (.num 0.5) (.num 0.3) (.num 1.1) (cosmoStd 1024)
          (some 0.001) (.val 0.1)) = .ok (.val S1) ∧
      Except.map SensitivityResult.is_valid
        (compute_sensitivity (.num 2.0) (.num 0.3) (.num 1.1) (cosmoStd 1024)
          (some 0.001) (.val 0.1)) = .ok true ∧
      Except.map SensitivityResult.S_dlnM_dzs
        (compute_sensitivity (.num 2.0) (.num 0.3) (.num 1.1) (cosmoStd 1024)
          (some 0.001) (.val 0.1)) = .ok (.val S2) ∧
      |S1 - S2| < 1e-6 := by
  obtain ⟨dl, sg, sp, sm, hdl, hsg, hsp, hsm, heval⟩ := sens_std_eval
  have h1 := heval 0.5 (by norm_num) (.val 0.1)
  have h2 := heval 2.0 (by norm_num) (.val 0.1)
  refine ⟨(Real.log sp - Real.log sm) / (2 * 0.001),
    (Real.log sp - Real.log sm) / (2 * 0.001), ?_, ?_, ?_, ?_, by norm_num⟩ <;>
    simp [h1, h2, Except.map]

/-- The validity predicate of the spec's `SensitivityResult` invariant: every
numeric field other than the echoed raw inputs is finite, and `M_inf`,
`Σ_crit`, `D_l` are strictly positive. -/
def resultInvariant (r : SensitivityResult) : Prop :=
  r.theta_E_rad.isVal ∧ r.D_l_m.isVal ∧ r.Sigma_crit_kg_m2.isVal ∧ r.M_inf_kg.isVal ∧
    r.S_dlnM_dzs.isVal ∧ r.dM_over_M_for_delta_z.isVal ∧
    r.M_inf_kg.posVal ∧ r.Sigma_crit_kg_m2.posVal ∧ r.D_l_m.posVal

/-- C3 (amended: `delta_z` finite).  For every run of the kernel that returns
(rather than raising), with a finite `delta_z`, the result satisfies
`is_valid = true` exactly when the invariant holds.  (A NaN `delta_z`
violates the biconditional: see the counterexample.) -/
theorem C3_is_valid_iff_invariant (tE zL zS : Raw) (cosmo : FlatLambdaCDM)
    (h : Option ℝ) (d : ℝ) (r : SensitivityResult)
    (hr : compute_sensitivity tE zL zS cosmo h (PyF.val d) = .ok r) :
    r.is_valid = true ↔ resultInvariant r := by
  simp only [compute_sensitivity] at hr
  split at hr
  · rw [Except.ok.injEq] at hr
    subst hr
    simp [resultInvariant]
  · split at hr
    rotate_left
    · exact absurd hr (by simp)
    rename_i th zl zs heqa heqb heqc
    split at hr
    · rw [Except.ok.injEq] at hr
      subst hr
      simp [resultInvariant]
    · split at hr
      · rw [Except.ok.injEq] at hr
        subst hr
        simp [resultInvariant]
      · rcases hDl : cosmo.angular_diameter_distance zl with e | D_l
        · cases e
          rw [hDl] at hr
          exact absurd hr (by simp)
        rw [hDl] at hr
        simp only [except_bind_ok] at hr
        rcases hSg : cosmo.sigma_crit zl zs with e | Sg
        · cases e
          rw [hSg] at hr
          exact absurd hr (by simp)
        rw [hSg] at hr
        simp only [except_bind_ok] at hr
        split at hr
        · rw [Except.ok.injEq] at hr
          subst hr
          rename_i hDlbad
          simp [resultInvariant, hDlbad]
        split at hr
        · rw [Except.ok.injEq] at hr
          subst hr
          rename_i hSgbad
          simp [resultInvariant, hSgbad]
        split at hr
        · rw [Except.ok.injEq] at hr
          subst hr
          rename_i hMbad
          simp [resultInvariant, hMbad]
        rename_i hDlok hSgok hMok
        rcases hLp : ln_sigma cosmo zl (zs + _) with e | Lp
        · cases e
          rw [hLp] at hr
          exact absurd hr (by simp)
        rw [hLp] at hr
        simp only [except_bind_ok] at hr
        rcases hLm : ln_sigma cosmo zl (zs - _) with e | Lm
        · cases e
          rw [hLm] at hr
          exact absurd hr (by simp)
        rw [hLm] at hr
        simp only [except_bind_ok] at hr
        have hDl' : D_l.posVal := not_not.mp hDlok
        have hSg' : Sg.posVal := not_not.mp hSgok
        have hM' := not_not.mp hMok
        obtain ⟨dlv, hdlv⟩ : ∃ x, D_l = PyF.val x := by
          cases D_l
          · exact ⟨_, rfl⟩
          · exact absurd hDl' (by simp)
        obtain ⟨sgv, hsgv⟩ : ∃ x, Sg = PyF.val x := by
          cases Sg
          · exact ⟨_, rfl⟩
          · exact absurd hSg' (by simp)
        subst hdlv hsgv
        split at hr
        · -- central difference, then `finish`
          split at hr
          · rename_i hSbad
            exact absurd hSbad (by simp)
          rw [Except.ok.injEq] at hr
          subst hr
          simp_all [resultInvariant]
        · -- fallback ladder (the re-evaluated one-sided terms are the same
          -- pure values `Lp`, `Lm` already in scope)
          rcases hL0 : ln_sigma cosmo zl zs with e | L0
          · cases e
            rw [hL0] at hr
            exact absurd hr (by simp)
          rw [hL0] at hr
          simp only [except_bind_ok] at hr
          split at hr
          · -- ln Σ(z_s) undefined
            rw [Except.ok.injEq] at hr
            subst hr
            simp [resultInvariant]
          split at hr
          · -- forward difference
            split at hr
            · rename_i hSbad
              exact absurd hSbad (by simp)
            rw [Except.ok.injEq] at hr
            subst hr
            simp_all [resultInvariant]
          · -- backward difference or failure
            split at hr
            · split at hr
              · rename_i hSbad
                exact absurd hSbad (by simp)
              rw [Except.ok.injEq] at hr
              subst hr
              simp_all [resultInvariant]
            · rw [Except.ok.injEq] at hr
              subst hr
              simp [resultInvariant]

/-- Witness for C3's amended biconditional at the standard valid run. -/
theorem C3_is_valid_iff_invariant_witness :
    ∃ r : SensitivityResult,
      compute_sensitivity (.num 1.2) (.num 0.3) (.num 1.1) (cosmoStd 1024)
        (some 0.001) (PyF.val 0.1) = .ok r ∧ (r.is_valid = true ↔ resultInvariant r) := by
  obtain ⟨dl, sg, sp, sm, hdl, hsg, hsp, hsm, heval⟩ := sens_std_eval
  have h1 := heval 1.2 (by norm_num) (.val 0.1)
  exact ⟨_, h1, C3_is_valid_iff_invariant _ _ _ _ _ _ _ h1⟩

/-- Counterexample to C3 as stated ("including every value of delta_z"): at a
NaN `delta_z` the standard run reports `is_valid = true` while the derived
`dM_over_M_for_delta_z` field is NaN, so the invariant's right-hand side
fails. -/
theorem C3_nan_delta_z_counterexample :
    Except.map SensitivityResult.is_valid
      (compute_sensitivity (.num 1.2) (.num 0.3) (.num 1.1) (cosmoStd 1024)
        (some 0.001) PyF.nan) = .ok true ∧
    Except.map SensitivityResult.dM_over_M_for_delta_z
      (compute_sensitivity (.num 1.2) (.num 0.3) (.num 1.1) (cosmoStd 1024)
        (some 0.001) PyF.nan) = .ok PyF.nan := by
  obtain ⟨dl, sg, sp, sm, hdl, hsg, hsp, hsm, heval⟩ := sens_std_eval
  have h1 := heval 1.2 (by norm_num) PyF.nan
  constructor <;> simp [h1, Except.map]

/-- A coerced non-positive Einstein radius always raises
`flag_thetaE_nonpositive`. -/
theorem validate_thetaE_nonpositive_mem (tE zL zS : Raw) (rq st : Bool) {θ : ℝ}
    (hc : (to_float tE .thetaE).1 = some θ) (hθ : θ ≤ 0) :
    LensFlag.flag_thetaE_nonpositive ∈ (validate_lens_inputs tE zL zS rq st).flags := by
  simp [validate_lens_inputs, hc, hθ]

/-- When strict validation reports valid, the normalized dict binds the
`theta_E_arcsec` key to the coerced value. -/
theorem validate_normalized_theta (tE zL zS : Raw)
    (hv : (validate_lens_inputs tE zL zS true true).is_valid = true) :
    (validate_lens_inputs tE zL zS true true).normalized.theta_E_arcsec =
      some ((to_float tE .thetaE).1) := by
  simp only [validate_lens_inputs] at hv ⊢
  rw [if_pos hv]

/-- A strictly-validated triple with no flags has a strictly positive
normalized Einstein radius: the `thetaE_nonpositive` check would otherwise
have flagged it. -/
theorem validate_ok_theta_pos {tE zL zS : Raw} {θ a b : ℝ}
    (hval : validate_lens_inputs tE zL zS true true =
      ⟨true, [], ⟨some (some θ), some (some a), some (some b)⟩⟩) :
    0 < θ := by
  by_contra hle
  push_neg at hle
  have hiv : (validate_lens_inputs tE zL zS true true).is_valid = true := by rw [hval]
  have hth := validate_normalized_theta tE zL zS hiv
  rw [hval] at hth
  have hc : (to_float tE .thetaE).1 = some θ := by
    simpa using hth.symm
  have hmem := validate_thetaE_nonpositive_mem tE zL zS true true hc hle
  rw [hval] at hmem
  simp at hmem

/-- C2 (amended).  For inputs that pass raw validation and the three computed
quantity checks, the differencing scheme follows the source ladder exactly.
Because `Σ_crit(z_l, z_s) > 0` has already been checked (and the engine is a
pure function of its immutable state), `ln Σ(z_s)` is always finite here, so
the `nonfinite_lnSigma_at_zs` rung can never fire for inputs that reach the
ladder — that is recorded as the `ln_sigma` conjunct.  Near the boundary
(`z_s - h ≤ z_l < z_s`) the run is a forward-difference success
*provided `ln Σ(z_s + h)` is finite*; when it is not, backward differencing is
also unavailable and the call fails with `nonfinite_S` — the final conjunct
(see the counterexample for the unamended statement). -/
theorem C2_differencing_ladder (tE zL zS : Raw) (cosmo : FlatLambdaCDM)
    (θ zl zs hv : ℝ) (dz : PyF)
    (hval : validate_lens_inputs tE zL zS true true =
      ⟨true, [], ⟨some (some θ), some (some zl), some (some zs)⟩⟩)
    (hh : 0 < hv)
    (dl : ℝ) (hDl : cosmo.angular_diameter_distance zl = .ok (PyF.val dl)) (hdl : 0 < dl)
    (sg : ℝ) (hSg : cosmo.sigma_crit zl zs = .ok (PyF.val sg)) (hsg : 0 < sg) :
    ln_sigma cosmo zl zs = .ok (PyF.val (Real.log sg)) ∧
    (∀ p q : ℝ, ln_sigma cosmo zl (zs + hv) = .ok (PyF.val p) →
      ln_sigma cosmo zl (zs - hv) = .ok (PyF.val q) →
      Except.map (fun r => (r.is_valid, r.flags, r.S_dlnM_dzs))
          (compute_sensitivity tE zL zS cosmo (some hv) dz) =
        .ok (true, [], PyF.val ((p - q) / (2 * hv)))) ∧
    (∀ p : ℝ, ln_sigma cosmo zl (zs + hv) = .ok (PyF.val p) →
      ln_sigma cosmo zl (zs - hv) = .ok PyF.nan →
      Except.map (fun r => (r.is_valid, r.flags, r.S_dlnM_dzs))
          (compute_sensitivity tE zL zS cosmo (some hv) dz) =
        .ok (true, [.flag_used_forward_diff],
          PyF.val ((p - Real.log sg) / hv))) ∧
    (∀ q : ℝ, ln_sigma cosmo zl (zs + hv) = .ok PyF.nan →
      ln_sigma cosmo zl (zs - hv) = .ok (PyF.val q) →
      Except.map (fun r => (r.is_valid, r.flags, r.S_dlnM_dzs))
          (compute_sensitivity tE zL zS cosmo (some hv) dz) =
        .ok (true, [.flag_used_backward_diff],
          PyF.val ((Real.log sg - q) / hv))) ∧
    (ln_sigma cosmo zl (zs + hv) = .ok PyF.nan →
      ln_sigma cosmo zl (zs - hv) = .ok PyF.nan →
      Except.map (fun r => (r.is_valid, r.flags, r.S_dlnM_dzs))
          (compute_sensitivity tE zL zS cosmo (some hv) dz) =
        .ok (false, [.flag_nonfinite_S], PyF.nan)) ∧
    (zs - hv ≤ zl → ∀ p : ℝ, ln_sigma cosmo zl (zs + hv) = .ok (PyF.val p) →
      Except.map (fun r => (r.is_valid, r.flags))
          (compute_sensitivity tE zL zS cosmo (some hv) dz) =
        .ok (true, [.flag_used_forward_diff])) ∧
    (zs - hv ≤ zl → ln_sigma cosmo zl (zs + hv) = .ok PyF.nan →
      Except.map (fun r => (r.is_valid, r.flags, r.S_dlnM_dzs))
          (compute_sensitivity tE zL zS cosmo (some hv) dz) =
        .ok (false, [.flag_nonfinite_S], PyF.nan)) := by
  have hθ : 0 < θ := validate_ok_theta_pos hval
  have hln0 : ln_sigma cosmo zl zs = .ok (PyF.val (Real.log sg)) :=
    ln_sigma_eval_pos hSg hsg
  have hMpos : 0 < Real.pi *
      (dl * (θ * ARCSEC_TO_RAD) * (dl * (θ * ARCSEC_TO_RAD))) * sg := by
    have hfac : 0 < dl * (θ * ARCSEC_TO_RAD) :=
      mul_pos hdl (mul_pos hθ ARCSEC_TO_RAD_pos)
    exact mul_pos (mul_pos Real.pi_pos (mul_pos hfac hfac)) hsg
  have hhneg : ¬ (hv ≤ 0) := not_le.mpr hh
  refine ⟨hln0, ?_, ?_, ?_, ?_, ?_, ?_⟩
  · intro p q hLp hLm
    simp only [compute_sensitivity, hval, hDl, hSg, hLp, hLm, except_bind_ok,
      PyF.val_mul_val]
    rw [if_neg (by simp)]
    rw [if_neg hhneg]
    rw [if_neg (by simp [hdl]), if_neg (by simp [hsg]), if_neg (by simp [hMpos])]
    rw [if_neg (by simp)]
    simp [Except.map]
  · intro p hLp hLm
    simp only [compute_sensitivity, hval, hDl, hSg, hLp, hLm, hln0, except_bind_ok,
      PyF.val_mul_val]
    rw [if_neg (by simp)]
    rw [if_neg hhneg]
    rw [if_neg (by simp [hdl]), if_neg (by simp [hsg]), if_neg (by simp [hMpos])]
    rw [if_neg (by simp)]
    simp [Except.map]
  · intro q hLp hLm
    simp only [compute_sensitivity, hval, hDl, hSg, hLp, hLm, hln0, except_bind_ok,
      PyF.val_mul_val]
    rw [if_neg (by simp)]
    rw [if_neg hhneg]
    rw [if_neg (by simp [hdl]), if_neg (by simp [hsg]), if_neg (by simp [hMpos])]
    rw [if_neg (by simp)]
    simp [Except.map]
  · intro hLp hLm
    simp only [compute_sensitivity, hval, hDl, hSg, hLp, hLm, hln0, except_bind_ok,
      PyF.val_mul_val]
    rw [if_neg (by simp)]
    rw [if_neg hhneg]
    rw [if_neg (by simp [hdl]), if_neg (by simp [hsg]), if_neg (by simp [hMpos])]
    simp [Except.map]
  · intro hnear p hLp
    have hLm : ln_sigma cosmo zl (zs - hv) = .ok PyF.nan :=
      ln_sigma_eval_nan (FlatLambdaCDM.sigma_crit_of_le hnear)
    simp only [compute_sensitivity, hval, hDl, hSg, hLp, hLm, hln0, except_bind_ok,
      PyF.val_mul_val]
    rw [if_neg (by simp)]
    rw [if_neg hhneg]
    rw [if_neg (by simp [hdl]), if_neg (by simp [hsg]), if_neg (by simp [hMpos])]
    rw [if_neg (by simp)]
    simp [Except.map]
  · intro hnear hLp
    have hLm : ln_sigma cosmo zl (zs - hv) = .ok PyF.nan :=
      ln_sigma_eval_nan (FlatLambdaCDM.sigma_crit_of_le hnear)
    simp only [compute_sensitivity, hval, hDl, hSg, hLp, hLm, hln0, except_bind_ok,
      PyF.val_mul_val]
    rw [if_neg (by simp)]
    rw [if_neg hhneg]
    rw [if_neg (by simp [hdl]), if_neg (by simp [hsg]), if_neg (by simp [hMpos])]
    simp [Except.map]

/-- Witness for C2 at the standard configuration: the context hypotheses hold
and the central-difference rung yields a flagless valid run. -/
theorem C2_differencing_ladder_witness :
    Except.map (fun r : SensitivityResult => (r.is_valid, r.flags))
      (compute_sensitivity (.num 1.2) (.num 0.3) (.num 1.1) (cosmoStd 1024)
        (some 0.001) (.val 0.1)) = .ok (true, []) := by
  have hn : (1024 : ℕ) ≠ 0 := by norm_num
  obtain ⟨d1, hd1, hd1lo, hd1hi⟩ := std_comoving 1024 hn (by norm_num : (0:ℝ) < 0.3) (by norm_num)
  have hd1pos : 0 < d1 := by
    have hsc := FlatLambdaCDM.scale_pos (c := cosmoStd 1024) (cosmoStd_H0_pos 1024)
    exact lt_of_lt_of_le (by positivity) hd1lo
  have hDl := FlatLambdaCDM.angular_diameter_distance_eval (c := cosmoStd 1024)
    (by norm_num : (0:ℝ) ≤ 0.3) hd1
  obtain ⟨sg, hsg, hsgpos⟩ := std_sigma_pos 1024 hn (by norm_num : (1:ℝ) ≤ 1.1) (by norm_num)
  obtain ⟨sp, hsp, hsppos⟩ := std_sigma_pos 1024 hn (by norm_num : (1:ℝ) ≤ 1.101) (by norm_num)
  obtain ⟨sm, hsm, hsmpos⟩ := std_sigma_pos 1024 hn (by norm_num : (1:ℝ) ≤ 1.099) (by norm_num)
  have hlnp : ln_sigma (cosmoStd 1024) 0.3 (1.1 + 0.001) = .ok (PyF.val (Real.log sp)) := by
    rw [show (1.1:ℝ) + 0.001 = 1.101 by norm_num]
    exact ln_sigma_eval_pos hsp hsppos
  have hlnm : ln_sigma (cosmoStd 1024) 0.3 (1.1 - 0.001) = .ok (PyF.val (Real.log sm)) := by
    rw [show (1.1:ℝ) - 0.001 = 1.099 by norm_num]
    exact ln_sigma_eval_pos hsm hsmpos
  have lad := C2_differencing_ladder (.num 1.2) (.num 0.3) (.num 1.1) (cosmoStd 1024)
    1.2 0.3 1.1 0.001 (.val 0.1)
    (validate_num_ok 1.2 0.3 1.1 true true (by norm_num) (by norm_num) (by norm_num))
    (by norm_num) (d1 / (1 + 0.3)) hDl (by positivity) sg hsg hsgpos
  have hc := lad.2.1 (Real.log sp) (Real.log sm) hlnp hlnm
  rcases hC : compute_sensitivity (.num 1.2) (.num 0.3) (.num 1.1) (cosmoStd 1024)
      (some 0.001) (.val 0.1) with e | r
  · rw [hC] at hc
    simp [Except.map] at hc
  · rw [hC] at hc
    simp only [Except.map, Except.ok.injEq, Prod.mk.injEq] at hc
    obtain ⟨h1, h2, h3⟩ := hc
    simp [Except.map, h1, h2]

/-!
## A cosmology on which the fixed-n Simpson value is not monotone in z

With `Om0 = 1e-8` (so `Ode0 = 1 - 1e-8`) and `n_int = 16`, the integrand
`1/E` has a sharp boundary layer near `z = 0` that the 16-node grid resolves
at `z = 8000` but under-resolves at `z = 14000`; the quadrature value
genuinely *decreases*:  `I(8000) ≈ 1065.39`, `I(9008) ≈ 1067.51`,
`I(14000) ≈ 1059.88`.  The radicand is positive everywhere (`≥ 1 - 1e-8`),
so every quantity below is finite: no NaN or domain error is involved. -/
def cosmoCE : FlatLambdaCDM := mkFlatLambdaCDM 70 1e-8 none 16

theorem cosmoCE_Om0 : cosmoCE.Om0 = 1e-8 := rfl

theorem cosmoCE_Ode0 : cosmoCE.Ode0 = 1 - 1e-8 := rfl

theorem cosmoCE_n_int : cosmoCE.n_int = 16 := by norm_num [cosmoCE, mkFlatLambdaCDM]

theorem cosmoCE_nice : cosmoCE.nice := by
  constructor <;> norm_num [cosmoCE_Om0, cosmoCE_Ode0]

theorem cosmoCE_H0_pos : 0 < cosmoCE.H0_km_s_Mpc := by
  norm_num [cosmoCE, mkFlatLambdaCDM]

/-- Bracket `1/E` at a point from a rational bracket of the radicand. -/
theorem invEreal_bracket (c : FlatLambdaCDM) (x sqlo sqhi : ℝ) (h0 : 0 < sqlo)
    (h1 : sqlo ^ 2 ≤ c.Om0 * (1 + x) ^ 3 + c.Ode0)
    (h2 : c.Om0 * (1 + x) ^ 3 + c.Ode0 ≤ sqhi ^ 2) (h3 : 0 ≤ sqhi) :
    1 / sqhi ≤ c.invEreal x ∧ c.invEreal x ≤ 1 / sqlo := by
  rw [FlatLambdaCDM.invEreal]
  exact inv_sqrt_mem h0 h1 h2 h3

theorem ceI8000_bounds :
    (1065.39 : ℝ) ≤ simpsonReal cosmoCE.invEreal 0 8000 16 ∧
    simpsonReal cosmoCE.invEreal 0 8000 16 ≤ (1065.4 : ℝ) := by
  have n0 := invEreal_bracket cosmoCE 0 1 1 (by norm_num)
    (by norm_num [cosmoCE_Om0, cosmoCE_Ode0]) (by norm_num [cosmoCE_Om0, cosmoCE_Ode0])
    (by norm_num)
  have n1 := invEreal_bracket cosmoCE 500 1.50250291 1.50250292 (by norm_num)
    (by norm_num [cosmoCE_Om0, cosmoCE_Ode0]) (by norm_num [cosmoCE_Om0, cosmoCE_Ode0])
    (by norm_num)
  have n2 := invEreal_bracket cosmoCE 1000 3.32114889 3.3211489 (by norm_num)
    (by norm_num [cosmoCE_Om0, cosmoCE_Ode0]) (by norm_num [cosmoCE_Om0, cosmoCE_Ode0])
    (by norm_num)
  have n3 := invEreal_bracket cosmoCE 1500 5.90063937 5.90063938 (by norm_num)
    (by norm_num [cosmoCE_Om0, cosmoCE_Ode0]) (by norm_num [cosmoCE_Om0, cosmoCE_Ode0])
    (by norm_num)
  have n4 := invEreal_bracket cosmoCE 2000 9.00666753 9.00666754 (by norm_num)
    (by norm_num [cosmoCE_Om0, cosmoCE_Ode0]) (by norm_num [cosmoCE_Om0, cosmoCE_Ode0])
    (by norm_num)
  have n5 := invEreal_bracket cosmoCE 2500 12.54741307 12.54741308 (by norm_num)
    (by norm_num [cosmoCE_Om0, cosmoCE_Ode0]) (by norm_num [cosmoCE_Om0, cosmoCE_Ode0])
    (by norm_num)
  have n6 := invEreal_bracket cosmoCE 3000 16.47027898 16.47027899 (by norm_num)
    (by norm_num [cosmoCE_Om0, cosmoCE_Ode0]) (by norm_num [cosmoCE_Om0, cosmoCE_Ode0])
    (by norm_num)
  have n7 := invEreal_bracket cosmoCE 3500 20.73927686 20.73927687 (by norm_num)
    (by norm_num [cosmoCE_Om0, cosmoCE_Ode0]) (by norm_num [cosmoCE_Om0, cosmoCE_Ode0])
    (by norm_num)
  have n8 := invEreal_bracket cosmoCE 4000 25.32745782 25.32745783 (by norm_num)
    (by norm_num [cosmoCE_Om0, cosmoCE_Ode0]) (by norm_num [cosmoCE_Om0, cosmoCE_Ode0])
    (by norm_num)
  have n9 := invEreal_bracket cosmoCE 4500 30.21353397 30.21353398 (by norm_num)
    (by norm_num [cosmoCE_Om0, cosmoCE_Ode0]) (by norm_num [cosmoCE_Om0, cosmoCE_Ode0])
    (by norm_num)
  have n10 := invEreal_bracket cosmoCE 5000 35.38008126 35.38008127 (by norm_num)
    (by norm_num [cosmoCE_Om0, cosmoCE_Ode0]) (by norm_num [cosmoCE_Om0, cosmoCE_Ode0])
    (by norm_num)
  have n11 := invEreal_bracket cosmoCE 5500 40.81246947 40.81246948 (by norm_num)
    (by norm_num [cosmoCE_Om0, cosmoCE_Ode0]) (by norm_num [cosmoCE_Om0, cosmoCE_Ode0])
    (by norm_num)
  have n12 := invEreal_bracket cosmoCE 6000 46.49817394 46.49817395 (by norm_num)
    (by norm_num [cosmoCE_Om0, cosmoCE_Ode0]) (by norm_num [cosmoCE_Om0, cosmoCE_Ode0])
    (by norm_num)
  have n13 := invEreal_bracket cosmoCE 6500 52.42630727 52.42630728 (by norm_num)
    (by norm_num [cosmoCE_Om0, cosmoCE_Ode0]) (by norm_num [cosmoCE_Om0, cosmoCE_Ode0])
    (by norm_num)
  have n14 := invEreal_bracket cosmoCE 7000 58.5872871 58.58728711 (by norm_num)
    (by norm_num [cosmoCE_Om0, cosmoCE_Ode0]) (by norm_num [cosmoCE_Om0, cosmoCE_Ode0])
    (by norm_num)
  have n15 := invEreal_bracket cosmoCE 7500 64.9725921 64.97259211 (by norm_num)
    (by norm_num [cosmoCE_Om0, cosmoCE_Ode0]) (by norm_num [cosmoCE_Om0, cosmoCE_Ode0])
    (by norm_num)
  have n16 := invEreal_bracket cosmoCE 8000 71.57457816 71.57457817 (by norm_num)
    (by norm_num [cosmoCE_Om0, cosmoCE_Ode0]) (by norm_num [cosmoCE_Om0, cosmoCE_Ode0])
    (by norm_num)
  rw [simpsonReal]
  simp only [show ((8000:ℝ) - 0) / ((16:ℕ):ℝ) = 500 from by norm_num, zero_add]
  rw [show (Finset.Ico 1 16) = Finset.Ico 1 (2*8) from rfl]
  rw [sum_filter_odd_Ico (fun i => cosmoCE.invEreal ((i : ℝ) * 500)) 8,
    sum_filter_even_Ico (fun i => cosmoCE.invEreal ((i : ℝ) * 500)) 8]
  simp only [Finset.sum_range_succ, Finset.sum_range_zero]
  norm_num
  constructor
  · linarith [n0.1, n1.1, n2.1, n3.1, n4.1, n5.1, n6.1, n7.1, n8.1, n9.1, n10.1, n11.1, n12.1, n13.1, n14.1, n15.1, n16.1]
  · linarith [n0.2, n1.2, n2.2, n3.2, n4.2, n5.2, n6.2, n7.2, n8.2, n9.2, n10.2, n11.2, n12.2, n13.2, n14.2, n15.2, n16.2]

theorem ceI9008_lower :
    (1067.51 : ℝ) ≤ simpsonReal cosmoCE.invEreal 0 9008 16 := by
  have n0 := invEreal_bracket cosmoCE 0 1 1 (by norm_num)
    (by norm_num [cosmoCE_Om0, cosmoCE_Ode0]) (by norm_num [cosmoCE_Om0, cosmoCE_Ode0])
    (by norm_num)
  have n1 := invEreal_bracket cosmoCE 563 1.67154462 1.67154463 (by norm_num)
    (by norm_num [cosmoCE_Om0, cosmoCE_Ode0]) (by norm_num [cosmoCE_Om0, cosmoCE_Ode0])
    (by norm_num)
  have n2 := invEreal_bracket cosmoCE 1126 3.91335582 3.91335583 (by norm_num)
    (by norm_num [cosmoCE_Om0, cosmoCE_Ode0]) (by norm_num [cosmoCE_Om0, cosmoCE_Ode0])
    (by norm_num)
  have n3 := invEreal_bracket cosmoCE 1689 7.01912316 7.01912317 (by norm_num)
    (by norm_num [cosmoCE_Om0, cosmoCE_Ode0]) (by norm_num [cosmoCE_Om0, cosmoCE_Ode0])
    (by norm_num)
  have n4 := invEreal_bracket cosmoCE 2252 10.74069284 10.74069285 (by norm_num)
    (by norm_num [cosmoCE_Om0, cosmoCE_Ode0]) (by norm_num [cosmoCE_Om0, cosmoCE_Ode0])
    (by norm_num)
  have n5 := invEreal_bracket cosmoCE 2815 14.9768069 14.97680691 (by norm_num)
    (by norm_num [cosmoCE_Om0, cosmoCE_Ode0]) (by norm_num [cosmoCE_Om0, cosmoCE_Ode0])
    (by norm_num)
  have n6 := invEreal_bracket cosmoCE 3378 19.66728474 19.66728475 (by norm_num)
    (by norm_num [cosmoCE_Om0, cosmoCE_Ode0]) (by norm_num [cosmoCE_Om0, cosmoCE_Ode0])
    (by norm_num)
  have n7 := invEreal_bracket cosmoCE 3941 24.77017821 24.77017822 (by norm_num)
    (by norm_num [cosmoCE_Om0, cosmoCE_Ode0]) (by norm_num [cosmoCE_Om0, cosmoCE_Ode0])
    (by norm_num)
  have n8 := invEreal_bracket cosmoCE 4504 30.25377457 30.25377458 (by norm_num)
    (by norm_num [cosmoCE_Om0, cosmoCE_Ode0]) (by norm_num [cosmoCE_Om0, cosmoCE_Ode0])
    (by norm_num)
  have n9 := invEreal_bracket cosmoCE 5067 36.09289049 36.0928905 (by norm_num)
    (by norm_num [cosmoCE_Om0, cosmoCE_Ode0]) (by norm_num [cosmoCE_Om0, cosmoCE_Ode0])
    (by norm_num)
  have n10 := invEreal_bracket cosmoCE 5630 42.26684925 42.26684926 (by norm_num)
    (by norm_num [cosmoCE_Om0, cosmoCE_Ode0]) (by norm_num [cosmoCE_Om0, cosmoCE_Ode0])
    (by norm_num)
  have n11 := invEreal_bracket cosmoCE 6193 48.75825564 48.75825565 (by norm_num)
    (by norm_num [cosmoCE_Om0, cosmoCE_Ode0]) (by norm_num [cosmoCE_Om0, cosmoCE_Ode0])
    (by norm_num)
  have n12 := invEreal_bracket cosmoCE 6756 55.55219888 55.55219889 (by norm_num)
    (by norm_num [cosmoCE_Om0, cosmoCE_Ode0]) (by norm_num [cosmoCE_Om0, cosmoCE_Ode0])
    (by norm_num)
  have n13 := invEreal_bracket cosmoCE 7319 62.63570611 62.63570612 (by norm_num)
    (by norm_num [cosmoCE_Om0, cosmoCE_Ode0]) (by norm_num [cosmoCE_Om0, cosmoCE_Ode0])
    (by norm_num)
  have n14 := invEreal_bracket cosmoCE 7882 69.9973524 69.99735241 (by norm_num)
    (by norm_num [cosmoCE_Om0, cosmoCE_Ode0]) (by norm_num [cosmoCE_Om0, cosmoCE_Ode0])
    (by norm_num)
  have n15 := invEreal_bracket cosmoCE 8445 77.62697343 77.62697344 (by norm_num)
    (by norm_num [cosmoCE_Om0, cosmoCE_Ode0]) (by norm_num [cosmoCE_Om0, cosmoCE_Ode0])
    (by norm_num)
  have n16 := invEreal_bracket cosmoCE 9008 85.51544817 85.51544818 (by norm_num)
    (by norm_num [cosmoCE_Om0, cosmoCE_Ode0]) (by norm_num [cosmoCE_Om0, cosmoCE_Ode0])
    (by norm_num)
  rw [simpsonReal]
  simp only [show ((9008:ℝ) - 0) / ((16:ℕ):ℝ) = 563 from by norm_num, zero_add]
  rw [show (Finset.Ico 1 16) = Finset.Ico 1 (2*8) from rfl]
  rw [sum_filter_odd_Ico (fun i => cosmoCE.invEreal ((i : ℝ) * 563)) 8,
    sum_filter_even_Ico (fun i => cosmoCE.invEreal ((i : ℝ) * 563)) 8]
  simp only [Finset.sum_range_succ, Finset.sum_range_zero]
  norm_num
  linarith [n0.1, n1.1, n2.1, n3.1, n4.1, n5.1, n6.1, n7.1, n8.1, n9.1, n10.1, n11.1, n12.1, n13.1, n14.1, n15.1, n16.1]

theorem ceI14000_upper :
    simpsonReal cosmoCE.invEreal 0 14000 16 ≤ (1059.88 : ℝ) := by
  have n0 := invEreal_bracket cosmoCE 0 1 1 (by norm_num)
    (by norm_num [cosmoCE_Om0, cosmoCE_Ode0]) (by norm_num [cosmoCE_Om0, cosmoCE_Ode0])
    (by norm_num)
  have n1 := invEreal_bracket cosmoCE 875 2.77888714 2.77888715 (by norm_num)
    (by norm_num [cosmoCE_Om0, cosmoCE_Ode0]) (by norm_num [cosmoCE_Om0, cosmoCE_Ode0])
    (by norm_num)
  have n2 := invEreal_bracket cosmoCE 1750 7.3949765 7.39497651 (by norm_num)
    (by norm_num [cosmoCE_Om0, cosmoCE_Ode0]) (by norm_num [cosmoCE_Om0, cosmoCE_Ode0])
    (by norm_num)
  have n3 := invEreal_bracket cosmoCE 2625 13.49391358 13.49391359 (by norm_num)
    (by norm_num [cosmoCE_Om0, cosmoCE_Ode0]) (by norm_num [cosmoCE_Om0, cosmoCE_Ode0])
    (by norm_num)
  have n4 := invEreal_bracket cosmoCE 3500 20.73927686 20.73927687 (by norm_num)
    (by norm_num [cosmoCE_Om0, cosmoCE_Ode0]) (by norm_num [cosmoCE_Om0, cosmoCE_Ode0])
    (by norm_num)
  have n5 := invEreal_bracket cosmoCE 4375 28.9650944 28.96509441 (by norm_num)
    (by norm_num [cosmoCE_Om0, cosmoCE_Ode0]) (by norm_num [cosmoCE_Om0, cosmoCE_Ode0])
    (by norm_num)
  have n6 := invEreal_bracket cosmoCE 5250 38.06387109 38.0638711 (by norm_num)
    (by norm_num [cosmoCE_Om0, cosmoCE_Ode0]) (by norm_num [cosmoCE_Om0, cosmoCE_Ode0])
    (by norm_num)
  have n7 := invEreal_bracket cosmoCE 6125 47.95787405 47.95787406 (by norm_num)
    (by norm_num [cosmoCE_Om0, cosmoCE_Ode0]) (by norm_num [cosmoCE_Om0, cosmoCE_Ode0])
    (by norm_num)
  have n8 := invEreal_bracket cosmoCE 7000 58.5872871 58.58728711 (by norm_num)
    (by norm_num [cosmoCE_Om0, cosmoCE_Ode0]) (by norm_num [cosmoCE_Om0, cosmoCE_Ode0])
    (by norm_num)
  have n9 := invEreal_bracket cosmoCE 7875 69.90415705 69.90415706 (by norm_num)
    (by norm_num [cosmoCE_Om0, cosmoCE_Ode0]) (by norm_num [cosmoCE_Om0, cosmoCE_Ode0])
    (by norm_num)
  have n10 := invEreal_bracket cosmoCE 8750 81.8688945 81.86889451 (by norm_num)
    (by norm_num [cosmoCE_Om0, cosmoCE_Ode0]) (by norm_num [cosmoCE_Om0, cosmoCE_Ode0])
    (by norm_num)
  have n11 := invEreal_bracket cosmoCE 9625 94.44807919 94.4480792 (by norm_num)
    (by norm_num [cosmoCE_Om0, cosmoCE_Ode0]) (by norm_num [cosmoCE_Om0, cosmoCE_Ode0])
    (by norm_num)
  have n12 := invEreal_bracket cosmoCE 10500 107.61300021 107.61300022 (by norm_num)
    (by norm_num [cosmoCE_Om0, cosmoCE_Ode0]) (by norm_num [cosmoCE_Om0, cosmoCE_Ode0])
    (by norm_num)
  have n13 := invEreal_bracket cosmoCE 11375 121.33864039 121.3386404 (by norm_num)
    (by norm_num [cosmoCE_Om0, cosmoCE_Ode0]) (by norm_num [cosmoCE_Om0, cosmoCE_Ode0])
    (by norm_num)
  have n14 := invEreal_bracket cosmoCE 12250 135.60294426 135.60294427 (by norm_num)
    (by norm_num [cosmoCE_Om0, cosmoCE_Ode0]) (by norm_num [cosmoCE_Om0, cosmoCE_Ode0])
    (by norm_num)
  have n15 := invEreal_bracket cosmoCE 13125 150.38627478 150.38627479 (by norm_num)
    (by norm_num [cosmoCE_Om0, cosmoCE_Ode0]) (by norm_num [cosmoCE_Om0, cosmoCE_Ode0])
    (by norm_num)
  have n16 := invEreal_bracket cosmoCE 14000 165.67100054 165.67100055 (by norm_num)
    (by norm_num [cosmoCE_Om0, cosmoCE_Ode0]) (by norm_num [cosmoCE_Om0, cosmoCE_Ode0])
    (by norm_num)
  rw [simpsonReal]
  simp only [show ((14000:ℝ) - 0) / ((16:ℕ):ℝ) = 875 from by norm_num, zero_add]
  rw [show (Finset.Ico 1 16) = Finset.Ico 1 (2*8) from rfl]
  rw [sum_filter_odd_Ico (fun i => cosmoCE.invEreal ((i : ℝ) * 875)) 8,
    sum_filter_even_Ico (fun i => cosmoCE.invEreal ((i : ℝ) * 875)) 8]
  simp only [Finset.sum_range_succ, Finset.sum_range_zero]
  norm_num
  linarith [n0.2, n1.2, n2.2, n3.2, n4.2, n5.2, n6.2, n7.2, n8.2, n9.2, n10.2, n11.2, n12.2, n13.2, n14.2, n15.2, n16.2]


/-- `comoving_distance` of the counterexample cosmology, as a real Simpson
value on the 16-node grid. -/
theorem ce_comoving_eval {b : ℝ} (hb : 0 < b) :
    cosmoCE.comoving_distance b =
      .ok (PyF.val ((C_LIGHT / cosmoCE.H0_SI) * simpsonReal cosmoCE.invEreal 0 b 16)) := by
  have h := FlatLambdaCDM.comoving_distance_eval cosmoCE_nice (k := 8)
    (by rw [cosmoCE_n_int]) (by norm_num) hb
  rwa [cosmoCE_n_int] at h

/-- The quadrature dip: `D_C(14000) < D_C(8000) < D_C(9008)` on the
counterexample cosmology, all three finite. -/
theorem ce_comoving_dip :
    ∃ d8 d9 d14 : ℝ,
      cosmoCE.comoving_distance 8000 = .ok (PyF.val d8) ∧
      cosmoCE.comoving_distance 9008 = .ok (PyF.val d9) ∧
      cosmoCE.comoving_distance 14000 = .ok (PyF.val d14) ∧
      0 < d8 ∧ d8 < d9 ∧ d14 < d8 := by
  have hsc : 0 < C_LIGHT / cosmoCE.H0_SI := FlatLambdaCDM.scale_pos cosmoCE_H0_pos
  refine ⟨_, _, _, ce_comoving_eval (by norm_num), ce_comoving_eval (by norm_num),
    ce_comoving_eval (by norm_num), ?_, ?_, ?_⟩
  · have h1 := ceI8000_bounds.1
    nlinarith
  · have h1 := ceI8000_bounds.2
    have h2 := ceI9008_lower
    nlinarith
  · have h1 := ceI8000_bounds.1
    have h2 := ceI14000_upper
    nlinarith

/-- The `Except` result holds a finite float. -/
def okFiniteVal : Except Unit PyF → Prop
  | .ok (.val _) => True
  | _ => False

/-- The `Except` result holds a finite strictly negative float. -/
def okNegVal : Except Unit PyF → Prop
  | .ok (.val x) => x < 0
  | _ => False

/-- Counterexample to C7 as stated: on `FlatLambdaCDM(70, 1e-8, n_int=16)`
with `0 ≤ z1 = 8000 < z2 = 14000`, both comoving distances are finite yet
`angular_diameter_distance_z1z2(z1, z2)` is strictly negative — the fixed-n
Simpson approximation of the comoving distance is not monotone in `z`. -/
theorem C7_positive_counterexample :
    okFiniteVal (cosmoCE.comoving_distance 8000) ∧
    okFiniteVal (cosmoCE.comoving_distance 14000) ∧
    okNegVal (cosmoCE.angular_diameter_distance_z1z2 8000 14000) := by
  obtain ⟨d8, d9, d14, h8, h9, h14, hpos, hlt, hdip⟩ := ce_comoving_dip
  have hz := FlatLambdaCDM.angular_diameter_distance_z1z2_eval (c := cosmoCE)
    (by norm_num : (0:ℝ) ≤ 8000) (by norm_num : (8000:ℝ) < 14000) h8 h14
  refine ⟨by rw [h8]; trivial, by rw [h14]; trivial, ?_⟩
  rw [hz]
  exact div_neg_of_neg_of_pos (by linarith) (by norm_num)

/-- C7 (amended: the difference quotient need not be positive, since the
fixed-n Simpson comoving distance is not monotone — see the counterexample).
For `0 ≤ z1 < z2` with both comoving distances finite, the two-redshift
distance is the finite value `(D_C(z2) - D_C(z1))/(1+z2)`; for `z2 ≤ z1`
(both non-negative) it is the NaN sentinel, not an error. -/
theorem C7_z1z2_formula_and_sentinel (c : FlatLambdaCDM) (z1 z2 : ℝ)
    (h1 : 0 ≤ z1) (h2 : 0 ≤ z2) :
    (z2 ≤ z1 → c.angular_diameter_distance_z1z2 z1 z2 = .ok PyF.nan) ∧
    (z1 < z2 → ∀ d1 d2 : ℝ, c.comoving_distance z1 = .ok (PyF.val d1) →
      c.comoving_distance z2 = .ok (PyF.val d2) →
      c.angular_diameter_distance_z1z2 z1 z2 =
        .ok (PyF.val ((d2 - d1) / (1 + z2)))) := by
  constructor
  · intro hle
    rw [FlatLambdaCDM.angular_diameter_distance_z1z2,
      if_neg (by push_neg; exact ⟨h1, h2⟩), if_pos hle]
  · intro hlt d1 d2 hd1 hd2
    exact FlatLambdaCDM.angular_diameter_distance_z1z2_eval h1 hlt hd1 hd2

/-- Witness for C7's amended statement: the NaN sentinel on a reversed pair,
and the difference-quotient formula at the standard geometry. -/
theorem C7_z1z2_formula_and_sentinel_witness :
    (cosmoStd 2).angular_diameter_distance_z1z2 1.1 0.3 = .ok PyF.nan ∧
    ∃ d1 d2 : ℝ, (cosmoStd 2).comoving_distance 0.3 = .ok (PyF.val d1) ∧
      (cosmoStd 2).comoving_distance 1.1 = .ok (PyF.val d2) ∧
      (cosmoStd 2).angular_diameter_distance_z1z2 0.3 1.1 =
        .ok (PyF.val ((d2 - d1) / (1 + 1.1))) := by
  obtain ⟨d1, hd1, -, -⟩ := std_comoving 2 (by norm_num) (by norm_num : (0:ℝ) < 0.3) (by norm_num)
  obtain ⟨d2, hd2, -, -⟩ := std_comoving 2 (by norm_num) (by norm_num : (0:ℝ) < 1.1) (by norm_num)
  exact ⟨(C7_z1z2_formula_and_sentinel (cosmoStd 2) 1.1 0.3 (by norm_num) (by norm_num)).1
      (by norm_num),
    d1, d2, hd1, hd2,
    (C7_z1z2_formula_and_sentinel (cosmoStd 2) 0.3 1.1 (by norm_num) (by norm_num)).2
      (by norm_num) d1 d2 hd1 hd2⟩

/-- The three quantity checks of the kernel, as recorded in the result (the
kernel stores each computed quantity before testing it, so these fields
witness that the checks passed). -/
def quantity_checks_passed (r : SensitivityResult) : Prop :=
  r.D_l_m.posVal ∧ r.Sigma_crit_kg_m2.posVal ∧ r.M_inf_kg.posVal

/-- The kernel returned (did not raise) and its result satisfies `P`. -/
def okSatR (P : SensitivityResult → Prop) : Except Unit SensitivityResult → Prop
  | .ok r => P r
  | .error _ => False

/-- Counterexample to C2 as stated: on `FlatLambdaCDM(70, 1e-8, n_int=16)`
with `theta_E = 1.2, z_l = 8000, z_s = 9008, h = 4992`, raw validation and all
three quantity checks pass and `z_s - h ≤ z_l < z_s`, yet the run is *not* a
forward-difference success: `ln Σ(z_s + h)` is NaN (the Simpson comoving
distance dips below `D_C(z_l)` at `z_s + h = 14000`), backward differencing is
unavailable at `z_s - h ≤ z_l`, and the call fails with `nonfinite_S`. -/
theorem C2_near_boundary_counterexample :
    ((9008:ℝ) - 4992 ≤ 8000 ∧ (8000:ℝ) < 9008) ∧
    (validate_lens_inputs (.num 1.2) (.num 8000) (.num 9008) true true).is_valid = true ∧
    okSatR (fun r => quantity_checks_passed r ∧ r.is_valid = false ∧
        r.flags = [.flag_nonfinite_S])
      (compute_sensitivity (.num 1.2) (.num 8000) (.num 9008) cosmoCE
        (some 4992) (.val 0.1)) := by
  refine ⟨⟨by norm_num, by norm_num⟩,
    by rw [validate_num_ok 1.2 8000 9008 true true (by norm_num) (by norm_num) (by norm_num)],
    ?_⟩
  obtain ⟨d8, d9, d14, h8, h9, h14, hd8pos, hlt, hdip⟩ := ce_comoving_dip
  have hd9pos : 0 < d9 := lt_trans hd8pos hlt
  have hDl := FlatLambdaCDM.angular_diameter_distance_eval (c := cosmoCE)
    (by norm_num : (0:ℝ) ≤ 8000) h8
  have hDs := FlatLambdaCDM.angular_diameter_distance_eval (c := cosmoCE)
    (by norm_num : (0:ℝ) ≤ 9008) h9
  have hDs14 := FlatLambdaCDM.angular_diameter_distance_eval (c := cosmoCE)
    (by norm_num : (0:ℝ) ≤ 14000) h14
  have hDls9 := FlatLambdaCDM.angular_diameter_distance_z1z2_eval (c := cosmoCE)
    (by norm_num : (0:ℝ) ≤ 8000) (by norm_num : (8000:ℝ) < 9008) h8 h9
  have hDls14 := FlatLambdaCDM.angular_diameter_distance_z1z2_eval (c := cosmoCE)
    (by norm_num : (0:ℝ) ≤ 8000) (by norm_num : (8000:ℝ) < 14000) h8 h14
  have hdl : 0 < d8 / (1 + 8000 : ℝ) := by positivity
  have hds : 0 < d9 / (1 + 9008 : ℝ) := by positivity
  have hdls : 0 < (d9 - d8) / (1 + 9008 : ℝ) := div_pos (by linarith) (by norm_num)
  have hSg := FlatLambdaCDM.sigma_crit_eval_pos
    (by norm_num : (8000:ℝ) < 9008) hDl hDs hDls9 hdl hds hdls
  have hsgpos : 0 < C_LIGHT ^ 2 / (4 * Real.pi * G_NEWTON) *
      (d9 / (1 + 9008) / (d8 / (1 + 8000) * ((d9 - d8) / (1 + 9008)))) := by
    have hpi := Real.pi_pos
    rw [C_LIGHT, G_NEWTON]
    positivity
  have hln0 : ln_sigma cosmoCE 8000 9008 = .ok (PyF.val (Real.log
      (C_LIGHT ^ 2 / (4 * Real.pi * G_NEWTON) *
        (d9 / (1 + 9008) / (d8 / (1 + 8000) * ((d9 - d8) / (1 + 9008))))))) :=
    ln_sigma_eval_pos hSg hsgpos
  have hSg14 : cosmoCE.sigma_crit 8000 14000 = .ok PyF.nan := by
    apply FlatLambdaCDM.sigma_crit_eval_nan (by norm_num : (8000:ℝ) < 14000)
      hDl hDs14 hDls14
    refine Or.inr (Or.inr ?_)
    rw [PyF.nonposOrNan_val]
    apply div_nonpos_of_nonpos_of_nonneg (by linarith) (by norm_num)
  have hlnp : ln_sigma cosmoCE 8000 ((9008:ℝ) + 4992) = .ok PyF.nan := by
    rw [show (9008:ℝ) + 4992 = 14000 by norm_num]
    exact ln_sigma_eval_nan hSg14
  have hlnm : ln_sigma cosmoCE 8000 ((9008:ℝ) - 4992) = .ok PyF.nan := by
    exact ln_sigma_eval_nan (FlatLambdaCDM.sigma_crit_of_le (by norm_num))
  have hval := validate_num_ok 1.2 8000 9008 true true (by norm_num) (by norm_num)
    (by norm_num)
  have hMpos : 0 < Real.pi *
      (d8 / (1 + 8000) * (1.2 * ARCSEC_TO_RAD) *
        (d8 / (1 + 8000) * (1.2 * ARCSEC_TO_RAD))) *
      (C_LIGHT ^ 2 / (4 * Real.pi * G_NEWTON) *
        (d9 / (1 + 9008) / (d8 / (1 + 8000) * ((d9 - d8) / (1 + 9008))))) := by
    have hfac : 0 < d8 / (1 + 8000 : ℝ) * (1.2 * ARCSEC_TO_RAD) :=
      mul_pos hdl (mul_pos (by norm_num) ARCSEC_TO_RAD_pos)
    exact mul_pos (mul_pos Real.pi_pos (mul_pos hfac hfac)) hsgpos
  simp only [compute_sensitivity, hval, hDl, hSg, hlnp, hlnm, hln0, except_bind_ok,
    PyF.val_mul_val]
  rw [if_neg (by simp)]
  rw [if_neg (by norm_num : ¬ ((4992:ℝ) ≤ 0))]
  rw [if_neg (by simp [hdl]), if_neg (by simp [hsgpos]), if_neg (by simp [hMpos])]
  exact ⟨⟨by simpa using hdl, by simpa using hsgpos, by simpa using hMpos⟩, rfl, rfl⟩

end
